import Mathlib

/-!
# Loyalty ledger: the in-memory store and the earn and redeem handlers

A shallow embedding of `backend/internal/services/memory_database_service.go`,
`backend/internal/models/user.go`, the provider methods of
`backend/internal/services/square_service.go` and the `EarnPoints` and
`RedeemPoints` handlers of `backend/internal/api/handlers/loyalty.go`.

Modelling conventions.

* Every method of `MemoryService` takes the store's lock for its whole body
  (`s.mu.Lock(); defer s.mu.Unlock()`), so a concurrent execution is a
  sequence of whole method calls.  A method is a function from the state
  before the call to its result and the state after it.
* Go maps are association lists with `mapGet` (`m[k]`) and `mapSet`
  (`m[k] = v`).  A `range` loop visits the entries in list order.  Go leaves
  that order unspecified; the loops of the store look for an entry with a
  given identifier, and `IdInv` shows that reachable states hold at most one.
* `int` is the 64-bit two's-complement integer: `Balance` and `Points` are
  `Int`, and `+=` / `-=` reduce their result with `wrapInt`.
* `uint` counters (`nextUserID`, `nextAccountID`, `nextTxnID`) are `Nat`.
  Every increment is paired with an object that stays in memory, so a counter
  cannot come near `2^64`.
* `time.Now()` is an argument `now : Nat` of the call.
* `strconv.ParseUint(s, 10, 32)` is `parseUint32`; `fmt.Sprintf("%d", n)` is
  `formatUint`.
* The handlers use the provider through `Provider`, a record of its four
  methods over a provider state of any type; `SquareService` is the mock of
  the source.  A handler is a function from the store, the provider's state,
  the clock reading and the request to its `Outcome`: the response, the store
  and provider state it leaves, and the provider calls it made.  The store
  calls of one handler run are taken back to back.
-/

namespace Loyalty

/-! ## Models (`models/user.go`) -/

structure User where
  ID : Nat
  Email : String
  PasswordHash : String
  CreatedAt : Nat
  UpdatedAt : Nat
deriving DecidableEq, Repr

structure LoyaltyAccount where
  ID : Nat
  UserID : Nat
  User : User
  Balance : Int
  CreatedAt : Nat
  UpdatedAt : Nat
deriving DecidableEq, Repr

/-- The zero value of `models.User`. -/
def User.zero : User := ⟨0, "", "", 0, 0⟩

/-- The zero value of `models.LoyaltyAccount`. -/
def LoyaltyAccount.zero : LoyaltyAccount := ⟨0, 0, User.zero, 0, 0, 0⟩

/-- The Go field `Type` is called `TxnType` here (`Type` is reserved). -/
structure Transaction where
  ID : Nat
  AccountID : Nat
  Account : LoyaltyAccount
  TxnType : String
  Points : Int
  Timestamp : Nat
  CreatedAt : Nat
  UpdatedAt : Nat
deriving DecidableEq, Repr

/-! ## Machine integers and identifier parsing -/

/-- Reduction of an integer to Go's 64-bit `int` (two's complement). -/
def wrapInt (z : Int) : Int := Int.bmod z (2 ^ 64)

/-- The values of Go's 64-bit `int`. -/
def InIntRange (z : Int) : Prop := -(2 ^ 63) ≤ z ∧ z < 2 ^ 63

instance (z : Int) : Decidable (InIntRange z) := by
  unfold InIntRange; infer_instance

/-- The value of a string of decimal digits. -/
def digitsValue (cs : List Char) : Nat :=
  cs.foldl (fun acc c => acc * 10 + (c.toNat - 48)) 0

/-- `strconv.ParseUint(s, 10, 32)`: a non-empty string of ASCII digits whose
value fits in 32 bits; anything else is an error (`none`). -/
def parseUint32 (s : String) : Option Nat :=
  if s.data = [] then none
  else if s.data.all Char.isDigit then
    if digitsValue s.data < 2 ^ 32 then some (digitsValue s.data) else none
  else none

/-! ## Maps -/

/-- Map lookup `m[k]`. -/
def mapGet {κ α : Type} [DecidableEq κ] : List (κ × α) → κ → Option α
  | [], _ => none
  | (k', v) :: rest, k => if k' = k then some v else mapGet rest k

/-- Map assignment `m[k] = v`. -/
def mapSet {κ α : Type} [DecidableEq κ] : List (κ × α) → κ → α → List (κ × α)
  | [], k, v => [(k, v)]
  | (k', v') :: rest, k, v =>
    if k' = k then (k, v) :: rest else (k', v') :: mapSet rest k v

/-! ## The store (`services/memory_database_service.go`) -/

structure MemoryService where
  users : List (String × User)
  loyaltyAccounts : List (Nat × LoyaltyAccount)
  transactions : List (Nat × List Transaction)
  squareLoyaltyIDs : List (Nat × String)
  nextUserID : Nat
  nextAccountID : Nat
  nextTxnID : Nat
deriving DecidableEq, Repr

/-- The errors the store returns, one constructor per message. -/
inductive StoreError where
  | userAlreadyExists           -- "user already exists"
  | userNotFound                -- "user not found"
  | invalidUserID               -- "invalid user ID: ..."
  | loyaltyAccountNotFound      -- "loyalty account not found"
  | loyaltyAccountAlreadyExists -- "loyalty account already exists for this user"
  | invalidAccountID            -- "invalid account ID: ..."
  | accountNotFound             -- "account not found"
  | insufficientPoints          -- "insufficient points"
  | invalidTransactionType      -- "invalid transaction type"
deriving DecidableEq, Repr

deriving instance DecidableEq for Except

def NewMemoryService : MemoryService :=
  { users := [], loyaltyAccounts := [], transactions := [], squareLoyaltyIDs := [],
    nextUserID := 1, nextAccountID := 1, nextTxnID := 1 }

def UserExists (s : MemoryService) (email : String) : Bool :=
  (mapGet s.users email).isSome

def CreateUser (s : MemoryService) (now : Nat) (email passwordHash : String) :
    Except StoreError User × MemoryService :=
  match mapGet s.users email with
  | some _ => (.error .userAlreadyExists, s)
  | none =>
    let user : User :=
      { ID := s.nextUserID, Email := email, PasswordHash := passwordHash,
        CreatedAt := now, UpdatedAt := now }
    (.ok user, { s with users := mapSet s.users email user, nextUserID := s.nextUserID + 1 })

def GetUserByEmail (s : MemoryService) (email : String) : Except StoreError User :=
  match mapGet s.users email with
  | none => .error .userNotFound
  | some user => .ok user

def GetUserByID (s : MemoryService) (userID : String) : Except StoreError User :=
  match parseUint32 userID with
  | none => .error .invalidUserID
  | some uid =>
    match s.users.find? (fun kv => kv.2.ID == uid) with
    | some kv => .ok kv.2
    | none => .error .userNotFound

def GetLoyaltyAccountByUserID (s : MemoryService) (userID : String) :
    Except StoreError LoyaltyAccount :=
  match parseUint32 userID with
  | none => .error .invalidUserID
  | some uid =>
    match s.loyaltyAccounts.find? (fun kv => kv.2.UserID == uid) with
    | some kv => .ok kv.2
    | none => .error .loyaltyAccountNotFound

def CreateLoyaltyAccount (s : MemoryService) (now : Nat) (userID : String) :
    Except StoreError LoyaltyAccount × MemoryService :=
  match parseUint32 userID with
  | none => (.error .invalidUserID, s)
  | some uid =>
    if s.loyaltyAccounts.any (fun kv => kv.2.UserID == uid) then
      (.error .loyaltyAccountAlreadyExists, s)
    else
      match s.users.find? (fun kv => kv.2.ID == uid) with
      | none => (.error .userNotFound, s)
      | some kv =>
        let account : LoyaltyAccount :=
          { ID := s.nextAccountID, UserID := uid, User := kv.2, Balance := 0,
            CreatedAt := now, UpdatedAt := now }
        (.ok account,
          { s with loyaltyAccounts := mapSet s.loyaltyAccounts account.ID account,
                   nextAccountID := s.nextAccountID + 1 })

/-- The tail of `AddTransaction` after the balance update: build the
transaction, append it to the account's slice, advance `nextTxnID`. -/
def storeTransaction (s : MemoryService) (now id : Nat) (transactionType : String)
    (points : Int) : MemoryService :=
  let transaction : Transaction :=
    { ID := s.nextTxnID, AccountID := id, Account := LoyaltyAccount.zero,
      TxnType := transactionType, Points := points,
      Timestamp := now, CreatedAt := now, UpdatedAt := now }
  { s with
    transactions :=
      mapSet s.transactions id (((mapGet s.transactions id).getD []) ++ [transaction]),
    nextTxnID := s.nextTxnID + 1 }

def AddTransaction (s : MemoryService) (now : Nat) (accountID transactionType : String)
    (points : Int) : Option StoreError × MemoryService :=
  match parseUint32 accountID with
  | none => (some .invalidAccountID, s)
  | some id =>
    match mapGet s.loyaltyAccounts id with
    | none => (some .accountNotFound, s)
    | some account =>
      if transactionType = "EARN" then
        let account1 : LoyaltyAccount :=
          { account with Balance := wrapInt (account.Balance + points) }
        let s1 : MemoryService :=
          { s with loyaltyAccounts := mapSet s.loyaltyAccounts id account1 }
        (none, storeTransaction s1 now id transactionType points)
      else if transactionType = "REDEEM" then
        if account.Balance < points then
          (some .insufficientPoints, s)
        else
          let account1 : LoyaltyAccount :=
            { account with Balance := wrapInt (account.Balance - points) }
          let s1 : MemoryService :=
            { s with loyaltyAccounts := mapSet s.loyaltyAccounts id account1 }
          (none, storeTransaction s1 now id transactionType points)
      else
        (some .invalidTransactionType, s)

def GetBalance (s : MemoryService) (accountID : String) : Except StoreError Int :=
  match parseUint32 accountID with
  | none => .error .invalidAccountID
  | some id =>
    match mapGet s.loyaltyAccounts id with
    | none => .error .accountNotFound
    | some account => .ok account.Balance

def GetTransactionHistory (s : MemoryService) (accountID : String) :
    Except StoreError (List Transaction) :=
  match parseUint32 accountID with
  | none => .error .invalidAccountID
  | some id =>
    match mapGet s.transactions id with
    | none => .ok []
    | some transactions => .ok transactions

def UpdateSquareLoyaltyID (s : MemoryService) (accountID squareLoyaltyID : String) :
    Option StoreError × MemoryService :=
  match parseUint32 accountID with
  | none => (some .invalidAccountID, s)
  | some id =>
    match mapGet s.loyaltyAccounts id with
    | none => (some .accountNotFound, s)
    | some _ =>
      (none, { s with squareLoyaltyIDs := mapSet s.squareLoyaltyIDs id squareLoyaltyID })

def GetSquareLoyaltyID (s : MemoryService) (accountID : String) : Except StoreError String :=
  match parseUint32 accountID with
  | none => .error .invalidAccountID
  | some id =>
    match mapGet s.loyaltyAccounts id with
    | none => .error .accountNotFound
    | some _ =>
      match mapGet s.squareLoyaltyIDs id with
      | none => .ok ""
      | some loyaltyID => .ok loyaltyID

/-! ## Runs of the store -/

/-- One call of a state-changing method, with its arguments. -/
inductive Op where
  | createUser (now : Nat) (email passwordHash : String)
  | createLoyaltyAccount (now : Nat) (userID : String)
  | addTransaction (now : Nat) (accountID transactionType : String) (points : Int)
  | updateSquareLoyaltyID (accountID squareLoyaltyID : String)
deriving DecidableEq, Repr

/-- The state after one call. -/
def step (s : MemoryService) : Op → MemoryService
  | .createUser now email passwordHash => (CreateUser s now email passwordHash).2
  | .createLoyaltyAccount now userID => (CreateLoyaltyAccount s now userID).2
  | .addTransaction now accountID transactionType points =>
    (AddTransaction s now accountID transactionType points).2
  | .updateSquareLoyaltyID accountID squareLoyaltyID =>
    (UpdateSquareLoyaltyID s accountID squareLoyaltyID).2

/-- The state after a sequence of calls. -/
def run (s : MemoryService) (ops : List Op) : MemoryService := ops.foldl step s

/-- The states the store can be in: those a sequence of calls produces from
`NewMemoryService`. -/
def Reachable (s : MemoryService) : Prop := ∃ ops : List Op, s = run NewMemoryService ops

/-- The history slice of an account, `s.transactions[id]` (empty when absent). -/
def history (s : MemoryService) (id : Nat) : List Transaction :=
  (mapGet s.transactions id).getD []

/-- The contribution of a transaction to the balance: `+Points` for `EARN`,
`-Points` for `REDEEM`. -/
def signedPoints (t : Transaction) : Int :=
  if t.TxnType = "EARN" then t.Points
  else if t.TxnType = "REDEEM" then -t.Points
  else 0

/-- The signed sum of a history. -/
def signedSum (h : List Transaction) : Int := (h.map signedPoints).sum

/-- Every transaction record of the store, over all accounts. -/
def allTransactions (s : MemoryService) : List Transaction :=
  (s.transactions.map Prod.snd).flatten

/-! ## Records, resulting states and invariants used in the proofs -/

/-- The record `AddTransaction` appends: identifier `txnID`, account `id`. -/
def txnRecord (txnID now id : Nat) (transactionType : String) (points : Int) : Transaction :=
  { ID := txnID, AccountID := id, Account := LoyaltyAccount.zero,
    TxnType := transactionType, Points := points,
    Timestamp := now, CreatedAt := now, UpdatedAt := now }

/-- The state a successful `AddTransaction` leaves: the account `id` holds
`newBalance`, its history has one more record, and `nextTxnID` has advanced. -/
def afterCommit (s : MemoryService) (now id : Nat) (transactionType : String) (points : Int)
    (account : LoyaltyAccount) (newBalance : Int) : MemoryService :=
  { s with
    loyaltyAccounts := mapSet s.loyaltyAccounts id { account with Balance := newBalance },
    transactions := mapSet s.transactions id
      (history s id ++ [txnRecord s.nextTxnID now id transactionType points]),
    nextTxnID := s.nextTxnID + 1 }

/-- The account `CreateLoyaltyAccount` builds for the user `user`. -/
def accountRecord (accountID now uid : Nat) (user : User) : LoyaltyAccount :=
  { ID := accountID, UserID := uid, User := user, Balance := 0,
    CreatedAt := now, UpdatedAt := now }

/-- The user `CreateUser` builds. -/
def userRecord (userID now : Nat) (email passwordHash : String) : User :=
  { ID := userID, Email := email, PasswordHash := passwordHash,
    CreatedAt := now, UpdatedAt := now }

/-- Facts about account and user identifiers that every call preserves. -/
structure IdInv (s : MemoryService) : Prop where
  acct_id : ∀ kv ∈ s.loyaltyAccounts, kv.2.ID = kv.1
  acct_lt : ∀ kv ∈ s.loyaltyAccounts, kv.1 < s.nextAccountID
  txn_key_lt : ∀ kv ∈ s.transactions, kv.1 < s.nextAccountID
  user_nodup : (s.loyaltyAccounts.map (fun kv => kv.2.UserID)).Nodup
  acct_user : ∀ kv ∈ s.loyaltyAccounts, ∃ u ∈ s.users, u.2.ID = kv.2.UserID
  user_lt : ∀ u ∈ s.users, u.2.ID < s.nextUserID
  user_id_nodup : (s.users.map (fun u => u.2.ID)).Nodup

/-- Every stored balance is the signed sum of the account's history, in `int`. -/
def LedgerInv (s : MemoryService) : Prop :=
  ∀ id account, mapGet s.loyaltyAccounts id = some account →
    account.Balance = wrapInt (signedSum (history s id))

/-! ## Sample runs -/

/-- A short run: one user, their account, an `EARN` of 10 and a `REDEEM` of 4. -/
def sampleOps : List Op :=
  [.createUser 1 "a@b.c" "hash", .createLoyaltyAccount 2 "1",
   .addTransaction 3 "1" "EARN" 10, .addTransaction 4 "1" "REDEEM" 4]

/-- The state after `sampleOps`. -/
def sampleState : MemoryService := run NewMemoryService sampleOps

/-- The account of `sampleState`. -/
def sampleAccount : LoyaltyAccount :=
  { ID := 1, UserID := 1, User := userRecord 1 1 "a@b.c" "hash", Balance := 6,
    CreatedAt := 2, UpdatedAt := 2 }

/-- A store with one user and their new account (balance 0, no history). -/
def freshState : MemoryService :=
  run NewMemoryService [.createUser 1 "a@b.c" "hash", .createLoyaltyAccount 2 "1"]

/-- The account of `freshState`. -/
def freshAccount : LoyaltyAccount := accountRecord 1 2 1 (userRecord 1 1 "a@b.c" "hash")

/-- The largest Go `int`, `math.MaxInt64`. -/
def maxInt : Int := 2 ^ 63 - 1

/-- The smallest Go `int`, `math.MinInt64`. -/
def minInt : Int := -(2 ^ 63)

/-! ## Calls that keep balances within `0 .. maxInt` -/

/-- A call is in bounds in `s` when it is no `AddTransaction`, or its points
are not negative and, for an `EARN` on an existing account, the new balance
does not exceed `maxInt`. -/
def callInBounds (s : MemoryService) : Op → Bool
  | .addTransaction _ accountID transactionType points =>
    decide (0 ≤ points) &&
      (match GetBalance s accountID with
       | .ok b => transactionType != "EARN" || decide (b + points ≤ maxInt)
       | .error _ => true)
  | _ => true

/-- Every call of a run is in bounds in the state it is made in. -/
def runInBounds (s : MemoryService) : List Op → Bool
  | [] => true
  | op :: ops => callInBounds s op && runInBounds (step s op) ops

/-- Every stored balance lies in `0 .. maxInt`. -/
def NonNegInv (s : MemoryService) : Prop :=
  ∀ id account, mapGet s.loyaltyAccounts id = some account →
    0 ≤ account.Balance ∧ account.Balance ≤ maxInt

/-- Facts about transaction identifiers that every call preserves. -/
structure TxnInv (s : MemoryService) : Prop where
  increasing : ∀ id, ((history s id).map (fun t => t.ID)).Pairwise (fun a b => a < b)
  nodup : ((allTransactions s).map (fun t => t.ID)).Nodup
  below_next : ∀ t ∈ allTransactions s, t.ID < s.nextTxnID

/-! ## The scenario of 100 `EARN(10)` and 50 `REDEEM(5)` on one account -/

/-- One call of the scenario at clock reading `c.1`: `EARN` of 10 points when
`c.2` is `true`, `REDEEM` of 5 points when it is `false`. -/
def scenarioCall (accountID : String) (c : Nat × Bool) : Op :=
  if c.2 then .addTransaction c.1 accountID "EARN" 10
  else .addTransaction c.1 accountID "REDEEM" 5

/-- The calls of a scenario in the order the lock serialises them. -/
def scenarioOps (accountID : String) (sched : List (Nat × Bool)) : List Op :=
  sched.map (scenarioCall accountID)

/-- The number of `REDEEM` calls of a scenario that return no error. -/
def acceptedRedeems (s : MemoryService) (accountID : String) : List (Nat × Bool) → Nat
  | [] => 0
  | c :: rest =>
    (if !c.2 && (AddTransaction s c.1 accountID "REDEEM" 5).1.isNone then 1 else 0) +
      acceptedRedeems (step s (scenarioCall accountID c)) accountID rest

/-- The number of `EARN` calls of a scenario. -/
def earnCalls (sched : List (Nat × Bool)) : Nat := sched.countP (fun c => c.2)

/-- The number of `REDEEM` calls of a scenario. -/
def redeemCalls (sched : List (Nat × Bool)) : Nat := sched.countP (fun c => !c.2)

/-- All 50 `REDEEM`s first, then the 100 `EARN`s. -/
def redeemsFirst : List (Nat × Bool) :=
  List.replicate 50 (0, false) ++ List.replicate 100 (0, true)

/-- All 100 `EARN`s first, then the 50 `REDEEM`s. -/
def earnsFirst : List (Nat × Bool) :=
  List.replicate 100 (0, true) ++ List.replicate 50 (0, false)

/-- A store with one user who has no account yet. -/
def userOnlyState : MemoryService := run NewMemoryService [.createUser 1 "a@b.c" "hash"]

/-! ## Runs without a commit or a link for one account -/

/-- The call is an `AddTransaction` for account `id` that returns no error in `s`. -/
def commitsFor (id : Nat) (s : MemoryService) : Op → Bool
  | .addTransaction now accountID transactionType points =>
    parseUint32 accountID == some id &&
      (AddTransaction s now accountID transactionType points).1.isNone
  | _ => false

/-- No call of the run, made from `s`, commits a transaction for account `id`. -/
def noCommitFor (id : Nat) (s : MemoryService) : List Op → Bool
  | [] => true
  | op :: ops => !commitsFor id s op && noCommitFor id (step s op) ops

/-- The call is an `UpdateSquareLoyaltyID` for account `id` that returns no error in `s`. -/
def linksFor (id : Nat) (s : MemoryService) : Op → Bool
  | .updateSquareLoyaltyID accountID squareLoyaltyID =>
    parseUint32 accountID == some id &&
      (UpdateSquareLoyaltyID s accountID squareLoyaltyID).1.isNone
  | _ => false

/-- No call of the run, made from `s`, links account `id`. -/
def neverLinked (id : Nat) (s : MemoryService) : List Op → Bool
  | [] => true
  | op :: ops => !linksFor id s op && neverLinked id (step s op) ops

/-- The call is no `UpdateSquareLoyaltyID` for account `id` with the empty handle. -/
def keepsLinked (id : Nat) : Op → Bool
  | .updateSquareLoyaltyID accountID squareLoyaltyID =>
    !(parseUint32 accountID == some id) || squareLoyaltyID != ""
  | _ => true

/-- The account is linked: `GetSquareLoyaltyID` returns a non-empty handle. -/
def Linked (s : MemoryService) (accountID : String) : Prop :=
  ∃ h, GetSquareLoyaltyID s accountID = .ok h ∧ h ≠ ""

/-- The state `sampleState` after linking its account to the handle `"loyalty-x"`. -/
def linkedState : MemoryService :=
  run sampleState [.updateSquareLoyaltyID "1" "loyalty-x"]

/-! ## The loyalty provider (`services/square_service.go`) -/

/-- `services.Customer`. -/
structure Square.Customer where
  ID : String
  Email : String
deriving DecidableEq, Repr

/-- `services.LoyaltyAccount`, the provider's account. -/
structure Square.LoyaltyAccount where
  ID : String
  UserID : String
  Balance : Int
deriving DecidableEq, Repr

/-- The provider methods the earn and redeem handlers call, as a capability
with a state of its own (`π`): a call returns its result, an error with its
message, and the provider's next state. -/
structure Provider (π : Type) where
  GetOrCreateCustomer : π → String → Except String Square.Customer × π
  GetOrCreateLoyaltyAccount : π → String → Except String Square.LoyaltyAccount × π
  EarnPoints : π → String → Int → Option String × π
  RedeemPoints : π → String → Int → Option String × π

/-- The `SquareService` of the source: every method is a mock that succeeds. -/
def SquareService : Provider Unit where
  GetOrCreateCustomer := fun _ email => (.ok ⟨"customer-" ++ email, email⟩, ())
  GetOrCreateLoyaltyAccount := fun _ customerID =>
    (.ok ⟨"loyalty-" ++ customerID, customerID, 0⟩, ())
  EarnPoints := fun _ _ _ => (none, ())
  RedeemPoints := fun _ _ _ => (none, ())

/-- A provider whose `EarnPoints` and `RedeemPoints` fail with "unavailable";
provisioning is that of `SquareService`. -/
def failingProvider : Provider Unit where
  GetOrCreateCustomer := SquareService.GetOrCreateCustomer
  GetOrCreateLoyaltyAccount := SquareService.GetOrCreateLoyaltyAccount
  EarnPoints := fun _ _ _ => (some "unavailable", ())
  RedeemPoints := fun _ _ _ => (some "unavailable", ())

/-- A call a handler made on the provider, with its arguments and whether it
returned without error. -/
inductive ProviderCall where
  | getOrCreateCustomer (email : String) (ok : Bool)
  | getOrCreateLoyaltyAccount (customerID : String) (ok : Bool)
  | earnPoints (accountID : String) (points : Int) (ok : Bool)
  | redeemPoints (accountID : String) (points : Int) (ok : Bool)
deriving DecidableEq, Repr

/-! ## The handlers (`api/handlers/loyalty.go`) -/

/-- What a handler reads from the gin context: the `points` field of the JSON
body (`none` when the body does not decode to an integer `points`), and the
`user_id` the auth middleware stored. -/
structure Request where
  points : Option Int
  userID : Option String
deriving DecidableEq, Repr

/-- The JSON response: an error with its status and message, or status 200
with `message` and `square_account_id`. -/
inductive Response where
  | error (status : Nat) (message : String)
  | ok (message squareAccountID : String)
deriving DecidableEq, Repr

/-- `ShouldBindJSON` with the tag `binding:"required,min=1"`: the points are
bound when they are present and at least 1. -/
def bindPoints (body : Option Int) : Option Int :=
  match body with
  | none => none
  | some points => if 1 ≤ points then some points else none

/-- The decimal numeral `fmt.Sprintf("%d", n)` prints for a `uint`. -/
def formatUint (n : Nat) : String := toString n

/-- What a handler leaves: its response, the store, the provider's state and
the provider calls it made, in order. -/
structure Outcome (π : Type) where
  response : Response
  db : MemoryService
  provider : π
  calls : List ProviderCall

/-- `LoyaltyHandler.EarnPoints` with store `db`, provider `sq` in state `p0`,
clock reading `now`. -/
def LoyaltyHandler.EarnPoints {π : Type} (sq : Provider π) (db : MemoryService) (p0 : π)
    (now : Nat) (req : Request) : Outcome π :=
  match bindPoints req.points with
  | none => ⟨.error 400 "Invalid request", db, p0, []⟩
  | some points =>
  match req.userID with
  | none => ⟨.error 401 "User not found", db, p0, []⟩
  | some userID =>
  match GetUserByID db userID with
  | .error _ => ⟨.error 500 "Failed to get user", db, p0, []⟩
  | .ok user =>
  match sq.GetOrCreateCustomer p0 user.Email with
  | (.error e, p1) =>
    ⟨.error 500 ("Failed to create Square customer: " ++ e), db, p1,
      [.getOrCreateCustomer user.Email false]⟩
  | (.ok customer, p1) =>
  match sq.GetOrCreateLoyaltyAccount p1 customer.ID with
  | (.error e, p2) =>
    ⟨.error 500 ("Failed to create loyalty account: " ++ e), db, p2,
      [.getOrCreateCustomer user.Email true, .getOrCreateLoyaltyAccount customer.ID false]⟩
  | (.ok loyaltyAccount, p2) =>
  match sq.EarnPoints p2 loyaltyAccount.ID points with
  | (some e, p3) =>
    ⟨.error 500 ("Failed to earn points in Square: " ++ e), db, p3,
      [.getOrCreateCustomer user.Email true, .getOrCreateLoyaltyAccount customer.ID true,
       .earnPoints loyaltyAccount.ID points false]⟩
  | (none, p3) =>
  let calls : List ProviderCall :=
    [.getOrCreateCustomer user.Email true, .getOrCreateLoyaltyAccount customer.ID true,
     .earnPoints loyaltyAccount.ID points true]
  match GetLoyaltyAccountByUserID db userID with
  | .error _ => ⟨.error 500 "Failed to get local loyalty account", db, p3, calls⟩
  | .ok account =>
  let accountIDStr := formatUint account.ID
  match AddTransaction db now accountIDStr "EARN" points with
  | (some _, db1) => ⟨.error 500 "Failed to record points locally", db1, p3, calls⟩
  | (none, db1) =>
    ⟨.ok "Points earned successfully" loyaltyAccount.ID,
      (UpdateSquareLoyaltyID db1 accountIDStr loyaltyAccount.ID).2, p3, calls⟩

/-- The last part of `RedeemPoints`, once the provider's account is known:
redeem at the provider, then record the redemption in the store. -/
def LoyaltyHandler.redeemAt {π : Type} (sq : Provider π) (db : MemoryService) (p : π)
    (now : Nat) (accountIDStr squareLoyaltyID : String) (points : Int)
    (calls : List ProviderCall) : Outcome π :=
  match sq.RedeemPoints p squareLoyaltyID points with
  | (some e, p1) =>
    ⟨.error 500 ("Failed to redeem points in Square: " ++ e), db, p1,
      calls ++ [.redeemPoints squareLoyaltyID points false]⟩
  | (none, p1) =>
  match AddTransaction db now accountIDStr "REDEEM" points with
  | (some _, db1) =>
    ⟨.error 500 "Failed to record redemption locally", db1, p1,
      calls ++ [.redeemPoints squareLoyaltyID points true]⟩
  | (none, db1) =>
    ⟨.ok "Points redeemed successfully" squareLoyaltyID, db1, p1,
      calls ++ [.redeemPoints squareLoyaltyID points true]⟩

/-- The provisioning branch of `RedeemPoints`, taken when the store has no
handle for the account. -/
def LoyaltyHandler.redeemProvision {π : Type} (sq : Provider π) (db : MemoryService) (p0 : π)
    (now : Nat) (user : User) (accountIDStr : String) (points : Int) : Outcome π :=
  match sq.GetOrCreateCustomer p0 user.Email with
  | (.error e, p1) =>
    ⟨.error 500 ("Failed to create Square customer: " ++ e), db, p1,
      [.getOrCreateCustomer user.Email false]⟩
  | (.ok customer, p1) =>
  match sq.GetOrCreateLoyaltyAccount p1 customer.ID with
  | (.error e, p2) =>
    ⟨.error 500 ("Failed to create loyalty account: " ++ e), db, p2,
      [.getOrCreateCustomer user.Email true, .getOrCreateLoyaltyAccount customer.ID false]⟩
  | (.ok loyaltyAccount, p2) =>
    LoyaltyHandler.redeemAt sq (UpdateSquareLoyaltyID db accountIDStr loyaltyAccount.ID).2 p2
      now accountIDStr loyaltyAccount.ID points
      [.getOrCreateCustomer user.Email true, .getOrCreateLoyaltyAccount customer.ID true]

/-- `LoyaltyHandler.RedeemPoints` with store `db`, provider `sq` in state
`p0`, clock reading `now`. -/
def LoyaltyHandler.RedeemPoints {π : Type} (sq : Provider π) (db : MemoryService) (p0 : π)
    (now : Nat) (req : Request) : Outcome π :=
  match bindPoints req.points with
  | none => ⟨.error 400 "Invalid request", db, p0, []⟩
  | some points =>
  match req.userID with
  | none => ⟨.error 401 "User not found", db, p0, []⟩
  | some userID =>
  match GetUserByID db userID with
  | .error _ => ⟨.error 500 "Failed to get user", db, p0, []⟩
  | .ok user =>
  match GetLoyaltyAccountByUserID db userID with
  | .error _ => ⟨.error 500 "Failed to get local loyalty account", db, p0, []⟩
  | .ok account =>
  let accountIDStr := formatUint account.ID
  match GetBalance db accountIDStr with
  | .error _ => ⟨.error 500 "Failed to get balance", db, p0, []⟩
  | .ok balance =>
  if balance < points then ⟨.error 400 "Not enough points", db, p0, []⟩
  else
    match GetSquareLoyaltyID db accountIDStr with
    | .ok squareLoyaltyID =>
      if squareLoyaltyID = "" then
        LoyaltyHandler.redeemProvision sq db p0 now user accountIDStr points
      else LoyaltyHandler.redeemAt sq db p0 now accountIDStr squareLoyaltyID points []
    | .error _ => LoyaltyHandler.redeemProvision sq db p0 now user accountIDStr points

/-! ## Runs of `AddTransaction` calls with positive points and no overflow -/

/-- The call is an `AddTransaction` with `points > 0`. -/
def positiveAdd : Op → Bool
  | .addTransaction _ _ _ points => decide (0 < points)
  | _ => false

/-- The call, made in `s`, computes a balance outside Go's `int`: an `EARN`
whose `Balance + points`, or a performed `REDEEM` whose `Balance - points`,
is not an `int`. -/
def callOverflows (s : MemoryService) : Op → Bool
  | .addTransaction _ accountID transactionType points =>
    match GetBalance s accountID with
    | .ok b =>
      (transactionType == "EARN" && !decide (InIntRange (b + points))) ||
      (transactionType == "REDEEM" && !decide (b < points) &&
        !decide (InIntRange (b - points)))
    | .error _ => false
  | _ => false

/-- No call of the run, made from `s`, overflows. -/
def noOverflow (s : MemoryService) : List Op → Bool
  | [] => true
  | op :: ops => !callOverflows s op && noOverflow (step s op) ops

/-! ## The transactions a run records, in order of success -/

/-- The call is an `AddTransaction` that returns no error in `s`. -/
def succeeds (s : MemoryService) : Op → Bool
  | .addTransaction now accountID transactionType points =>
    (AddTransaction s now accountID transactionType points).1.isNone
  | _ => false

/-- The number of `AddTransaction` calls of the run, made from `s`, that
return no error. -/
def successCount (s : MemoryService) : List Op → Nat
  | [] => 0
  | op :: ops => (if succeeds s op then 1 else 0) + successCount (step s op) ops

/-- The transaction a call records: for an `AddTransaction` that returns no
error, the last entry of the account's history after the call. -/
def recorded (s : MemoryService) : Op → List Transaction
  | .addTransaction now accountID transactionType points =>
    if (AddTransaction s now accountID transactionType points).1.isNone then
      match GetTransactionHistory
          (AddTransaction s now accountID transactionType points).2 accountID with
      | .ok h => h.getLast?.toList
      | .error _ => []
    else []
  | _ => []

/-- The transactions the calls of a run record, in the order of the calls. -/
def commitLog (s : MemoryService) : List Op → List Transaction
  | [] => []
  | op :: ops => recorded s op ++ commitLog (step s op) ops

/-- Every history slice of the store belongs to an account of the store. -/
def HistoryOwned (s : MemoryService) : Prop :=
  ∀ id, (mapGet s.transactions id).isSome = true → (mapGet s.loyaltyAccounts id).isSome = true

/-- Three `AddTransaction` calls with positive points: `EARN` 10, `REDEEM` 4
and a `REDEEM` of 7 that exceeds the balance left. -/
def positiveCalls : List Op :=
  [.addTransaction 3 "1" "EARN" 10, .addTransaction 4 "1" "REDEEM" 4,
   .addTransaction 5 "1" "REDEEM" 7]

/-- The state `freshState` after an `EARN` of `maxInt` and an `EARN` of 1. -/
def overflowState : MemoryService :=
  run freshState [.addTransaction 3 "1" "EARN" maxInt, .addTransaction 4 "1" "EARN" 1]

/-- A store with two users and their accounts; account 2 has earned 7 points
and is linked to the handle `"loyalty-b"`, account 1 has no history. -/
def twoAccountState : MemoryService :=
  run NewMemoryService
    [.createUser 1 "a@b.c" "hash", .createLoyaltyAccount 2 "1",
     .createUser 3 "d@e.f" "hash2", .createLoyaltyAccount 4 "2",
     .addTransaction 5 "2" "EARN" 7, .updateSquareLoyaltyID "2" "loyalty-b"]

/-! # Theorems -/

/-! ## Maps: lookup after assignment, and the shape of an assignment -/

theorem mapGet_mapSet_self {κ α : Type} [DecidableEq κ] (m : List (κ × α)) (k : κ) (v : α) :
    mapGet (mapSet m k v) k = some v := by
  induction m with
  | nil => simp [mapSet, mapGet]
  | cons kv rest ih =>
    obtain ⟨k1, v1⟩ := kv
    by_cases h : k1 = k
    · simp [mapSet, mapGet, h]
    · simp [mapSet, mapGet, h, ih]

theorem mapGet_mapSet_ne {κ α : Type} [DecidableEq κ] (m : List (κ × α)) (k j : κ) (v : α)
    (hne : j ≠ k) : mapGet (mapSet m k v) j = mapGet m j := by
  induction m with
  | nil =>
    have : ¬ k = j := fun h => hne h.symm
    simp [mapSet, mapGet, this]
  | cons kv rest ih =>
    obtain ⟨k1, v1⟩ := kv
    by_cases h : k1 = k
    · have : ¬ k = j := fun h => hne h.symm
      have h1 : ¬ k1 = j := by rw [h]; exact this
      simp [mapSet, mapGet, h, this]
    · by_cases h2 : k1 = j
      · subst h2
        simp [mapSet, mapGet, h]
      · simp [mapSet, mapGet, h, h2, ih]

theorem mapGet_some_mem {κ α : Type} [DecidableEq κ] (m : List (κ × α)) (k : κ) (v : α)
    (h : mapGet m k = some v) : (k, v) ∈ m := by
  induction m with
  | nil => simp [mapGet] at h
  | cons kv rest ih =>
    obtain ⟨k1, v1⟩ := kv
    by_cases h1 : k1 = k
    · simp [mapGet, h1] at h
      simp [h1, h]
    · simp [mapGet, h1] at h
      exact List.mem_cons_of_mem _ (ih h)

theorem mapGet_none_of_forall_ne {κ α : Type} [DecidableEq κ] (m : List (κ × α)) (k : κ)
    (h : ∀ kv ∈ m, kv.1 ≠ k) : mapGet m k = none := by
  induction m with
  | nil => rfl
  | cons kv rest ih =>
    obtain ⟨k1, v1⟩ := kv
    have h1 : k1 ≠ k := h (k1, v1) (List.mem_cons_self _ _)
    simp only [mapGet, h1, if_false]
    exact ih (fun kv hkv => h kv (List.mem_cons_of_mem _ hkv))

theorem mapSet_of_none {κ α : Type} [DecidableEq κ] (m : List (κ × α)) (k : κ) (v : α)
    (h : mapGet m k = none) : mapSet m k v = m ++ [(k, v)] := by
  induction m with
  | nil => rfl
  | cons kv rest ih =>
    obtain ⟨k1, v1⟩ := kv
    by_cases h1 : k1 = k
    · simp [mapGet, h1] at h
    · simp only [mapGet, h1, if_false] at h
      simp [mapSet, h1, ih h]

theorem mapSet_of_some {κ α : Type} [DecidableEq κ] (m : List (κ × α)) (k : κ) (v0 v : α)
    (h : mapGet m k = some v0) :
    ∃ l1 l2, m = l1 ++ (k, v0) :: l2 ∧ mapSet m k v = l1 ++ (k, v) :: l2 := by
  induction m with
  | nil => simp [mapGet] at h
  | cons kv rest ih =>
    obtain ⟨k1, v1⟩ := kv
    by_cases h1 : k1 = k
    · simp [mapGet, h1] at h
      refine ⟨[], rest, ?_, ?_⟩
      · simp [h1, h]
      · simp [mapSet, h1]
    · simp only [mapGet, h1, if_false] at h
      obtain ⟨l1, l2, e1, e2⟩ := ih h
      refine ⟨(k1, v1) :: l1, l2, ?_, ?_⟩
      · simp [e1]
      · simp [mapSet, h1, e2]

/-! ## Machine integers -/

theorem wrapInt_of_inRange (z : Int) (h : InIntRange z) : wrapInt z = z := by
  obtain ⟨h1, h2⟩ := h
  unfold wrapInt Int.bmod
  have e : ((2 : Int) ^ 64 : Int) = 18446744073709551616 := by norm_num
  have e3 : ((2 : Int) ^ 63 : Int) = 9223372036854775808 := by norm_num
  have e2 : (((2 : Nat) ^ 64 : Nat) : Int) = 18446744073709551616 := by norm_num
  rw [e3] at h1 h2
  simp only [e2]
  split <;> omega

theorem wrapInt_inRange (z : Int) : InIntRange (wrapInt z) := by
  unfold wrapInt InIntRange Int.bmod
  have e3 : ((2 : Int) ^ 63 : Int) = 9223372036854775808 := by norm_num
  have e2 : (((2 : Nat) ^ 64 : Nat) : Int) = 18446744073709551616 := by norm_num
  rw [e3]
  simp only [e2]
  split <;> omega

theorem wrapInt_add_left (a b : Int) : wrapInt (wrapInt a + b) = wrapInt (a + b) := by
  unfold wrapInt
  exact Int.bmod_add_bmod_congr

theorem wrapInt_sub_left (a b : Int) : wrapInt (wrapInt a - b) = wrapInt (a - b) := by
  unfold wrapInt
  exact Int.bmod_sub_bmod_congr

/-! ## Runs -/

theorem run_append (s : MemoryService) (ops1 ops2 : List Op) :
    run s (ops1 ++ ops2) = run (run s ops1) ops2 := by
  simp [run, List.foldl_append]

theorem reachable_new : Reachable NewMemoryService := ⟨[], rfl⟩

theorem reachable_step {s : MemoryService} (h : Reachable s) (op : Op) :
    Reachable (step s op) := by
  obtain ⟨ops, rfl⟩ := h
  exact ⟨ops ++ [op], by simp [run, List.foldl_append]⟩

/-- Induction over the calls that lead to a state. -/
theorem reachable_induction {P : MemoryService → Prop} (h0 : P NewMemoryService)
    (hstep : ∀ s op, P s → P (step s op)) {s : MemoryService} (h : Reachable s) :
    P s := by
  obtain ⟨ops, rfl⟩ := h
  induction ops using List.reverseRecOn with
  | nil => exact h0
  | append_singleton ops op ih =>
    have : run NewMemoryService (ops ++ [op]) = step (run NewMemoryService ops) op := by
      simp [run, List.foldl_append]
    rw [this]
    exact hstep _ _ ih

/-! ## The effect of each call -/

/-- The two outcomes of `AddTransaction`: an error with the state untouched,
or a commit on an existing account with an `EARN` or an affordable `REDEEM`. -/
theorem AddTransaction_cases (s : MemoryService) (now : Nat) (accountID transactionType : String)
    (points : Int) :
    (∃ e, AddTransaction s now accountID transactionType points = (some e, s)) ∨
    (∃ id account newBalance,
      parseUint32 accountID = some id ∧ mapGet s.loyaltyAccounts id = some account ∧
      ((transactionType = "EARN" ∧ newBalance = wrapInt (account.Balance + points)) ∨
       (transactionType = "REDEEM" ∧ ¬ account.Balance < points ∧
          newBalance = wrapInt (account.Balance - points))) ∧
      AddTransaction s now accountID transactionType points =
        (none, afterCommit s now id transactionType points account newBalance)) := by
  cases hp : parseUint32 accountID with
  | none => exact Or.inl ⟨.invalidAccountID, by simp [AddTransaction, hp]⟩
  | some id =>
    cases hg : mapGet s.loyaltyAccounts id with
    | none => exact Or.inl ⟨.accountNotFound, by simp [AddTransaction, hp, hg]⟩
    | some account =>
      by_cases h1 : transactionType = "EARN"
      · right
        refine ⟨id, account, wrapInt (account.Balance + points), rfl, hg, Or.inl ⟨h1, rfl⟩, ?_⟩
        simp [AddTransaction, hp, hg, h1, storeTransaction, afterCommit, history, txnRecord]
      · by_cases h2 : transactionType = "REDEEM"
        · by_cases h3 : account.Balance < points
          · left
            exact ⟨.insufficientPoints, by simp [AddTransaction, hp, hg, h2, h3]⟩
          · right
            refine ⟨id, account, wrapInt (account.Balance - points), rfl, hg,
              Or.inr ⟨h2, h3, rfl⟩, ?_⟩
            simp [AddTransaction, hp, hg, h2, h3, storeTransaction, afterCommit, history,
              txnRecord]
        · left
          exact ⟨.invalidTransactionType, by simp [AddTransaction, hp, hg, h1, h2]⟩

/-- The two outcomes of `CreateLoyaltyAccount`: an error with the state
untouched, or a new account stored under `nextAccountID`. -/
theorem CreateLoyaltyAccount_cases (s : MemoryService) (now : Nat) (userID : String) :
    (∃ e, CreateLoyaltyAccount s now userID = (.error e, s)) ∨
    (∃ uid kv,
      parseUint32 userID = some uid ∧
      s.loyaltyAccounts.any (fun kv => kv.2.UserID == uid) = false ∧
      s.users.find? (fun kv => kv.2.ID == uid) = some kv ∧
      CreateLoyaltyAccount s now userID =
        (.ok (accountRecord s.nextAccountID now uid kv.2),
         { s with
           loyaltyAccounts := mapSet s.loyaltyAccounts s.nextAccountID
             (accountRecord s.nextAccountID now uid kv.2),
           nextAccountID := s.nextAccountID + 1 })) := by
  cases hp : parseUint32 userID with
  | none => exact Or.inl ⟨.invalidUserID, by simp [CreateLoyaltyAccount, hp]⟩
  | some uid =>
    by_cases h1 : s.loyaltyAccounts.any (fun kv => kv.2.UserID == uid) = true
    · left
      exact ⟨.loyaltyAccountAlreadyExists, by simp only [CreateLoyaltyAccount, hp, h1, if_true]⟩
    · cases hf : s.users.find? (fun kv => kv.2.ID == uid) with
      | none =>
        left
        exact ⟨.userNotFound, by simp only [CreateLoyaltyAccount, hp, h1, hf]; rfl⟩
      | some kv =>
        right
        refine ⟨uid, kv, rfl, by simpa using h1, hf, ?_⟩
        simp only [CreateLoyaltyAccount, hp, h1, hf]
        rfl

/-- The two outcomes of `CreateUser`. -/
theorem CreateUser_cases (s : MemoryService) (now : Nat) (email passwordHash : String) :
    (∃ e, CreateUser s now email passwordHash = (.error e, s)) ∨
    (mapGet s.users email = none ∧
      CreateUser s now email passwordHash =
        (.ok (userRecord s.nextUserID now email passwordHash),
         { s with
           users := s.users ++ [(email, userRecord s.nextUserID now email passwordHash)],
           nextUserID := s.nextUserID + 1 })) := by
  cases hg : mapGet s.users email with
  | some u => exact Or.inl ⟨.userAlreadyExists, by simp [CreateUser, hg]⟩
  | none =>
    right
    refine ⟨rfl, ?_⟩
    simp [CreateUser, hg, mapSet_of_none _ _ _ hg, userRecord]

/-- The two outcomes of `UpdateSquareLoyaltyID`. -/
theorem UpdateSquareLoyaltyID_cases (s : MemoryService) (accountID squareLoyaltyID : String) :
    (∃ e, UpdateSquareLoyaltyID s accountID squareLoyaltyID = (some e, s)) ∨
    (∃ id, parseUint32 accountID = some id ∧
      UpdateSquareLoyaltyID s accountID squareLoyaltyID =
        (none, { s with squareLoyaltyIDs := mapSet s.squareLoyaltyIDs id squareLoyaltyID })) := by
  cases hp : parseUint32 accountID with
  | none => exact Or.inl ⟨.invalidAccountID, by simp [UpdateSquareLoyaltyID, hp]⟩
  | some id =>
    cases hg : mapGet s.loyaltyAccounts id with
    | none => exact Or.inl ⟨.accountNotFound, by simp [UpdateSquareLoyaltyID, hp, hg]⟩
    | some account => exact Or.inr ⟨id, rfl, by simp [UpdateSquareLoyaltyID, hp, hg]⟩

theorem mem_mapSet {κ α : Type} [DecidableEq κ] (m : List (κ × α)) (k : κ) (v : α)
    (kv : κ × α) (h : kv ∈ mapSet m k v) : kv ∈ m ∨ kv = (k, v) := by
  cases hg : mapGet m k with
  | none =>
    rw [mapSet_of_none _ _ _ hg] at h
    simpa using h
  | some v0 =>
    obtain ⟨l1, l2, e1, e2⟩ := mapSet_of_some m k v0 v hg
    rw [e2] at h
    rw [e1]
    simp only [List.mem_append, List.mem_cons] at h ⊢
    tauto

/-- A call leaves the state as it was, commits a transaction, stores a new
account, stores a new user, or records an external handle. -/
theorem step_cases (s : MemoryService) (op : Op) :
    step s op = s ∨
    (∃ now id ty p account nb,
      mapGet s.loyaltyAccounts id = some account ∧
      ((ty = "EARN" ∧ nb = wrapInt (account.Balance + p)) ∨
       (ty = "REDEEM" ∧ ¬ account.Balance < p ∧ nb = wrapInt (account.Balance - p))) ∧
      step s op = afterCommit s now id ty p account nb) ∨
    (∃ now uid kv,
      s.loyaltyAccounts.any (fun kv => kv.2.UserID == uid) = false ∧
      s.users.find? (fun kv => kv.2.ID == uid) = some kv ∧
      step s op =
        { s with
          loyaltyAccounts := mapSet s.loyaltyAccounts s.nextAccountID
            (accountRecord s.nextAccountID now uid kv.2),
          nextAccountID := s.nextAccountID + 1 }) ∨
    (∃ now email passwordHash,
      mapGet s.users email = none ∧
      step s op =
        { s with
          users := s.users ++ [(email, userRecord s.nextUserID now email passwordHash)],
          nextUserID := s.nextUserID + 1 }) ∨
    (∃ id handle,
      step s op = { s with squareLoyaltyIDs := mapSet s.squareLoyaltyIDs id handle }) := by
  cases op with
  | createUser now email passwordHash =>
    rcases CreateUser_cases s now email passwordHash with ⟨e, h⟩ | ⟨hg, h⟩
    · left; simp [step, h]
    · right; right; right; left
      exact ⟨now, email, passwordHash, hg, by simp [step, h]⟩
  | createLoyaltyAccount now userID =>
    rcases CreateLoyaltyAccount_cases s now userID with ⟨e, h⟩ | ⟨uid, kv, _, h1, h2, h⟩
    · left; simp [step, h]
    · right; right; left
      exact ⟨now, uid, kv, h1, h2, by simp [step, h]⟩
  | addTransaction now accountID transactionType points =>
    rcases AddTransaction_cases s now accountID transactionType points with
      ⟨e, h⟩ | ⟨id, account, nb, _, hg, hk, h⟩
    · left; simp [step, h]
    · right; left
      exact ⟨now, id, transactionType, points, account, nb, hg, hk, by simp [step, h]⟩
  | updateSquareLoyaltyID accountID squareLoyaltyID =>
    rcases UpdateSquareLoyaltyID_cases s accountID squareLoyaltyID with ⟨e, h⟩ | ⟨id, _, h⟩
    · left; simp [step, h]
    · right; right; right; right
      exact ⟨id, squareLoyaltyID, by simp [step, h]⟩

/-! ## Identifier invariants -/

theorem idInv_next_account_free {s : MemoryService} (h : IdInv s) :
    mapGet s.loyaltyAccounts s.nextAccountID = none :=
  mapGet_none_of_forall_ne _ _ (fun kv hkv => Nat.ne_of_lt (h.acct_lt kv hkv))

theorem idInv_next_history_free {s : MemoryService} (h : IdInv s) :
    mapGet s.transactions s.nextAccountID = none :=
  mapGet_none_of_forall_ne _ _ (fun kv hkv => Nat.ne_of_lt (h.txn_key_lt kv hkv))

theorem idInv_new : IdInv NewMemoryService := by
  constructor <;> simp [NewMemoryService]

theorem idInv_step {s : MemoryService} (h : IdInv s) (op : Op) : IdInv (step s op) := by
  rcases step_cases s op with e | ⟨now, id, ty, p, account, nb, hg, _, e⟩ |
    ⟨now, uid, kv, h1, h2, e⟩ | ⟨now, email, ph, hg, e⟩ | ⟨id, handle, e⟩
  · rw [e]; exact h
  · rw [e]
    obtain ⟨l1, l2, e1, e2⟩ :=
      mapSet_of_some s.loyaltyAccounts id account { account with Balance := nb } hg
    have hmem : (id, account) ∈ s.loyaltyAccounts := mapGet_some_mem _ _ _ hg
    have hacc := h.acct_id
    have hlt := h.acct_lt
    have hnd := h.user_nodup
    have hus := h.acct_user
    rw [e1] at hacc hlt hnd hus
    constructor
    · simp only [afterCommit, e2]
      intro kv hkv
      simp only [List.mem_append, List.mem_cons] at hkv
      rcases hkv with hkv | hkv | hkv
      · exact hacc kv (by simp [hkv])
      · rw [hkv]; exact hacc (id, account) (by simp)
      · exact hacc kv (by simp [hkv])
    · simp only [afterCommit, e2]
      intro kv hkv
      simp only [List.mem_append, List.mem_cons] at hkv
      rcases hkv with hkv | hkv | hkv
      · exact hlt kv (by simp [hkv])
      · rw [hkv]; exact hlt (id, account) (by simp)
      · exact hlt kv (by simp [hkv])
    · simp only [afterCommit]
      intro kv hkv
      rcases mem_mapSet _ _ _ _ hkv with hkv | hkv
      · exact h.txn_key_lt kv hkv
      · rw [hkv]; exact h.acct_lt (id, account) hmem
    · simp only [afterCommit, e2]
      simpa using hnd
    · simp only [afterCommit, e2]
      intro kv hkv
      simp only [List.mem_append, List.mem_cons] at hkv
      rcases hkv with hkv | hkv | hkv
      · exact hus kv (by simp [hkv])
      · rw [hkv]; exact hus (id, account) (by simp)
      · exact hus kv (by simp [hkv])
    · exact h.user_lt
    · exact h.user_id_nodup
  · rw [e]
    have hfree := idInv_next_account_free h
    have hu : kv ∈ s.users := List.mem_of_find?_eq_some h2
    have hkid : kv.2.ID = uid := by
      have := List.find?_some h2
      simpa using this
    constructor
    · simp only [mapSet_of_none _ _ _ hfree]
      intro x hx
      simp only [List.mem_append, List.mem_singleton] at hx
      rcases hx with hx | hx
      · exact h.acct_id x hx
      · rw [hx]; rfl
    · simp only [mapSet_of_none _ _ _ hfree]
      intro x hx
      simp only [List.mem_append, List.mem_singleton] at hx
      rcases hx with hx | hx
      · exact Nat.lt_succ_of_lt (h.acct_lt x hx)
      · rw [hx]; exact Nat.lt_succ_self _
    · intro x hx
      exact Nat.lt_succ_of_lt (h.txn_key_lt x hx)
    · simp only [mapSet_of_none _ _ _ hfree, List.map_append, List.map_cons, List.map_nil]
      rw [List.nodup_append]
      refine ⟨h.user_nodup, List.nodup_singleton _, ?_⟩
      intro a ha hb
      simp only [List.mem_singleton] at hb
      simp only [List.mem_map] at ha
      obtain ⟨x, hx, hxa⟩ := ha
      have := List.any_eq_false.mp h1 x hx
      apply this
      simp [hxa, hb, accountRecord]
    · simp only [mapSet_of_none _ _ _ hfree]
      intro x hx
      simp only [List.mem_append, List.mem_singleton] at hx
      rcases hx with hx | hx
      · exact h.acct_user x hx
      · rw [hx]; exact ⟨kv, hu, by simp [accountRecord, hkid]⟩
    · exact h.user_lt
    · exact h.user_id_nodup
  · rw [e]
    constructor
    · exact h.acct_id
    · exact h.acct_lt
    · exact h.txn_key_lt
    · exact h.user_nodup
    · intro x hx
      obtain ⟨u, hu, hux⟩ := h.acct_user x hx
      exact ⟨u, by simp [hu], hux⟩
    · intro u hu
      simp only [List.mem_append, List.mem_singleton] at hu
      rcases hu with hu | hu
      · exact Nat.lt_succ_of_lt (h.user_lt u hu)
      · rw [hu]; exact Nat.lt_succ_self _
    · simp only [List.map_append, List.map_cons, List.map_nil]
      rw [List.nodup_append]
      refine ⟨h.user_id_nodup, List.nodup_singleton _, ?_⟩
      intro a ha hb
      simp only [List.mem_singleton] at hb
      obtain ⟨u, hu, hua⟩ := List.mem_map.mp ha
      have := h.user_lt u hu
      simp only [userRecord] at hb
      omega
  · rw [e]
    exact ⟨h.acct_id, h.acct_lt, h.txn_key_lt, h.user_nodup, h.acct_user, h.user_lt,
      h.user_id_nodup⟩

theorem reachable_idInv {s : MemoryService} (h : Reachable s) : IdInv s :=
  reachable_induction idInv_new (fun _ op ih => idInv_step ih op) h

/-! ## State after a commit -/

theorem history_afterCommit_self (s : MemoryService) (now id : Nat) (ty : String) (p : Int)
    (account : LoyaltyAccount) (nb : Int) :
    history (afterCommit s now id ty p account nb) id =
      history s id ++ [txnRecord s.nextTxnID now id ty p] := by
  simp [history, afterCommit, mapGet_mapSet_self]

theorem history_afterCommit_ne (s : MemoryService) (now id : Nat) (ty : String) (p : Int)
    (account : LoyaltyAccount) (nb : Int) (j : Nat) (hne : j ≠ id) :
    history (afterCommit s now id ty p account nb) j = history s j := by
  simp [history, afterCommit, mapGet_mapSet_ne _ _ _ _ hne]

theorem account_afterCommit_self (s : MemoryService) (now id : Nat) (ty : String) (p : Int)
    (account : LoyaltyAccount) (nb : Int) :
    mapGet (afterCommit s now id ty p account nb).loyaltyAccounts id =
      some { account with Balance := nb } := by
  simp [afterCommit, mapGet_mapSet_self]

theorem account_afterCommit_ne (s : MemoryService) (now id : Nat) (ty : String) (p : Int)
    (account : LoyaltyAccount) (nb : Int) (j : Nat) (hne : j ≠ id) :
    mapGet (afterCommit s now id ty p account nb).loyaltyAccounts j =
      mapGet s.loyaltyAccounts j := by
  simp [afterCommit, mapGet_mapSet_ne _ _ _ _ hne]

/-! ## The balance and the log -/

theorem signedSum_append_singleton (h : List Transaction) (t : Transaction) :
    signedSum (h ++ [t]) = signedSum h + signedPoints t := by
  simp [signedSum]

theorem ledgerInv_new : LedgerInv NewMemoryService := by
  intro id account h
  simp [NewMemoryService, mapGet] at h

theorem ledgerInv_step {s : MemoryService} (hid : IdInv s) (h : LedgerInv s) (op : Op) :
    LedgerInv (step s op) := by
  rcases step_cases s op with e | ⟨now, id, ty, p, account, nb, hg, hk, e⟩ |
    ⟨now, uid, kv, h1, h2, e⟩ | ⟨now, email, ph, hg, e⟩ | ⟨id, handle, e⟩
  · rw [e]; exact h
  · rw [e]
    intro j a hj
    by_cases hje : j = id
    · subst hje
      rw [account_afterCommit_self] at hj
      rw [history_afterCommit_self, signedSum_append_singleton]
      have hb := h j account hg
      have ha : a.Balance = nb := by
        have := Option.some.inj hj
        rw [← this]
      rw [ha]
      rcases hk with ⟨hty, hnb⟩ | ⟨hty, _, hnb⟩
      · rw [hnb, hb, wrapInt_add_left]
        simp [signedPoints, txnRecord, hty]
      · rw [hnb, hb, wrapInt_sub_left, Int.sub_eq_add_neg]
        have hne : ¬ ("REDEEM" = "EARN") := by decide
        simp [signedPoints, txnRecord, hty, hne]
    · rw [account_afterCommit_ne _ _ _ _ _ _ _ _ hje] at hj
      rw [history_afterCommit_ne _ _ _ _ _ _ _ _ hje]
      exact h j a hj
  · rw [e]
    intro j a hj
    by_cases hje : j = s.nextAccountID
    · subst hje
      simp only [mapGet_mapSet_self] at hj
      have ha : a.Balance = 0 := by
        have := Option.some.inj hj
        rw [← this]; rfl
      have hh : history s s.nextAccountID = [] := by
        simp [history, idInv_next_history_free hid]
      simp only [history] at hh ⊢
      rw [ha, hh]
      simp [signedSum, wrapInt]
    · simp only [mapGet_mapSet_ne _ _ _ _ hje] at hj
      exact h j a hj
  · rw [e]; exact h
  · rw [e]; exact h

theorem reachable_ledgerInv {s : MemoryService} (h : Reachable s) : LedgerInv s := by
  have : IdInv s ∧ LedgerInv s :=
    reachable_induction (P := fun s => IdInv s ∧ LedgerInv s) ⟨idInv_new, ledgerInv_new⟩
      (fun _ op ih => ⟨idInv_step ih.1 op, ledgerInv_step ih.1 ih.2 op⟩) h
  exact this.2

theorem GetBalance_eq (s : MemoryService) (accountID : String) (id : Nat)
    (account : LoyaltyAccount) (hp : parseUint32 accountID = some id)
    (hg : mapGet s.loyaltyAccounts id = some account) :
    GetBalance s accountID = .ok account.Balance := by
  simp [GetBalance, hp, hg]

theorem GetTransactionHistory_eq (s : MemoryService) (accountID : String) (id : Nat)
    (hp : parseUint32 accountID = some id) :
    GetTransactionHistory s accountID = .ok (history s id) := by
  cases hg : mapGet s.transactions id <;> simp [GetTransactionHistory, history, hp, hg]

/-! ## Claims -/

/-- C1, the claim as stated fails: on a new account `EARN` of `maxInt`
followed by `EARN` of 1 both return no error and are both logged; the sum of
the logged points is `2^63`, while the stored `Balance`, which `GetBalance`
returns, is `minInt = -2^63`. -/
theorem balance_differs_from_sum_after_overflow :
    Reachable overflowState ∧
    (history overflowState 1).map (fun t => (t.TxnType, t.Points)) =
      [("EARN", 9223372036854775807), ("EARN", 1)] ∧
    signedSum (history overflowState 1) = 9223372036854775808 ∧
    GetBalance overflowState "1" = .ok (-9223372036854775808) ∧
    ¬ (∀ s, Reachable s → ∀ id account, mapGet s.loyaltyAccounts id = some account →
        account.Balance = signedSum (history s id)) := by
  have hr : Reachable overflowState :=
    ⟨[.createUser 1 "a@b.c" "hash", .createLoyaltyAccount 2 "1",
      .addTransaction 3 "1" "EARN" maxInt, .addTransaction 4 "1" "EARN" 1], rfl⟩
  refine ⟨hr, by decide, by decide, by decide, ?_⟩
  intro hall
  have h := hall overflowState hr 1 { freshAccount with Balance := minInt } (by decide)
  exact absurd h (by decide)

/-- C1, amended. In every state reached from `NewMemoryService` by any
sequence of calls, the stored `Balance` of every account is the value
`GetBalance` returns and equals the sum over the account's
`GetTransactionHistory` of `+Points` per `EARN` record and `-Points` per
`REDEEM` record reduced to Go's 64-bit `int` (modulo `2^64`, into
`-2^63 .. 2^63 - 1`); it equals the sum itself whenever the sum is an `int`. -/
theorem balance_eq_signed_sum_in_int (s : MemoryService) (hs : Reachable s) (id : Nat)
    (account : LoyaltyAccount) (hg : mapGet s.loyaltyAccounts id = some account) :
    (∀ accountID, parseUint32 accountID = some id →
      GetBalance s accountID = .ok account.Balance ∧
      GetTransactionHistory s accountID = .ok (history s id)) ∧
    account.Balance = wrapInt (signedSum (history s id)) ∧
    (InIntRange (signedSum (history s id)) → account.Balance = signedSum (history s id)) := by
  have hb := reachable_ledgerInv hs id account hg
  refine ⟨fun accountID hp => ⟨GetBalance_eq s accountID id account hp hg,
    GetTransactionHistory_eq s accountID id hp⟩, hb, ?_⟩
  intro hr
  rw [hb, wrapInt_of_inRange _ hr]

theorem balance_eq_signed_sum_in_int_witness :
    Reachable sampleState ∧ mapGet sampleState.loyaltyAccounts 1 = some sampleAccount ∧
    InIntRange (signedSum (history sampleState 1)) ∧
    GetBalance sampleState "1" = .ok 6 ∧
    sampleAccount.Balance = signedSum (history sampleState 1) ∧
    signedSum (history sampleState 1) = 6 :=
  have h := balance_eq_signed_sum_in_int sampleState ⟨sampleOps, rfl⟩ 1 sampleAccount
    (by decide)
  ⟨⟨sampleOps, rfl⟩, by decide, by decide, (h.1 "1" (by decide)).1, h.2.2 (by decide),
    by decide⟩

theorem maxInt_eq : maxInt = 9223372036854775807 := by
  unfold maxInt; norm_num

theorem nonNegInv_new : NonNegInv NewMemoryService := by
  intro id account h
  simp [NewMemoryService, mapGet] at h

/-- A call that is in bounds keeps every balance within `0 .. maxInt`. -/
theorem nonNegInv_step {s : MemoryService} (h : NonNegInv s) (op : Op)
    (hop : callInBounds s op = true) : NonNegInv (step s op) := by
  cases op with
  | createUser now email passwordHash =>
    rcases CreateUser_cases s now email passwordHash with ⟨e, he⟩ | ⟨_, he⟩
    · simp only [step, he]; exact h
    · simp only [step, he]; exact h
  | createLoyaltyAccount now userID =>
    rcases CreateLoyaltyAccount_cases s now userID with ⟨e, he⟩ | ⟨uid, kv, _, _, _, he⟩
    · simp only [step, he]; exact h
    · simp only [step, he]
      intro j a hj
      by_cases hje : j = s.nextAccountID
      · subst hje
        simp only [mapGet_mapSet_self] at hj
        have ha : a.Balance = 0 := by
          have := Option.some.inj hj
          rw [← this]; rfl
        rw [ha, maxInt_eq]
        omega
      · simp only [mapGet_mapSet_ne _ _ _ _ hje] at hj
        exact h j a hj
  | addTransaction now accountID transactionType points =>
    rcases AddTransaction_cases s now accountID transactionType points with
      ⟨e, he⟩ | ⟨id, account, nb, hp, hg, hk, he⟩
    · simp only [step, he]; exact h
    · simp only [step, he]
      have hb := h id account hg
      simp only [callInBounds, GetBalance_eq s accountID id account hp hg, Bool.and_eq_true,
        Bool.or_eq_true, decide_eq_true_eq, bne_iff_ne] at hop
      obtain ⟨hp0, hov⟩ := hop
      rw [maxInt_eq] at hb hov
      have hnb : 0 ≤ nb ∧ nb ≤ maxInt := by
        rw [maxInt_eq]
        rcases hk with ⟨hty, hnb⟩ | ⟨hty, hle, hnb⟩
        · have hov2 : account.Balance + points ≤ 9223372036854775807 := by
            rcases hov with hov | hov
            · exact absurd hty hov
            · exact hov
          have hr : InIntRange (account.Balance + points) := by
            unfold InIntRange
            norm_num
            omega
          rw [hnb, wrapInt_of_inRange _ hr]
          omega
        · have hr : InIntRange (account.Balance - points) := by
            unfold InIntRange
            norm_num
            omega
          rw [hnb, wrapInt_of_inRange _ hr]
          omega
      intro j a hj
      by_cases hje : j = id
      · subst hje
        rw [account_afterCommit_self] at hj
        have ha : a.Balance = nb := by
          have := Option.some.inj hj
          rw [← this]
        rw [ha]; exact hnb
      · rw [account_afterCommit_ne _ _ _ _ _ _ _ _ hje] at hj
        exact h j a hj
  | updateSquareLoyaltyID accountID squareLoyaltyID =>
    rcases UpdateSquareLoyaltyID_cases s accountID squareLoyaltyID with ⟨e, he⟩ | ⟨id, _, he⟩
    · simp only [step, he]; exact h
    · simp only [step, he]; exact h

/-- A run whose calls are all in bounds keeps every balance within `0 .. maxInt`. -/
theorem nonNegInv_run {s : MemoryService} (h : NonNegInv s) (ops : List Op)
    (hops : runInBounds s ops = true) : NonNegInv (run s ops) := by
  induction ops generalizing s with
  | nil => exact h
  | cons op ops ih =>
    simp only [runInBounds, Bool.and_eq_true] at hops
    exact ih (nonNegInv_step h op hops.1) hops.2

/-- C2, the claim as stated fails: `EARN` with negative points, and two
`EARN`s whose sum exceeds `maxInt`, each leave a negative balance. -/
theorem balance_negative_reachable :
    GetBalance (run freshState [.addTransaction 3 "1" "EARN" (-5)]) "1" = .ok (-5) ∧
    GetBalance (run freshState
      [.addTransaction 3 "1" "EARN" maxInt, .addTransaction 4 "1" "EARN" 1]) "1" = .ok minInt ∧
    ¬ (∀ s, Reachable s → ∀ id account,
        mapGet s.loyaltyAccounts id = some account → 0 ≤ account.Balance) := by
  refine ⟨by decide, by decide, ?_⟩
  intro hall
  have hr : Reachable (run freshState [.addTransaction 3 "1" "EARN" (-5)]) :=
    ⟨[.createUser 1 "a@b.c" "hash", .createLoyaltyAccount 2 "1",
      .addTransaction 3 "1" "EARN" (-5)], rfl⟩
  have := hall _ hr 1 { freshAccount with Balance := -5 } (by decide)
  exact absurd this (by decide)

/-- C2, amended. In every state reached from `NewMemoryService` by calls in
which every `AddTransaction` has points `≥ 0` and no `EARN` takes a balance
above `maxInt`, every account's `Balance` is `≥ 0`. -/
theorem balance_nonneg_of_in_bounds (ops : List Op)
    (hops : runInBounds NewMemoryService ops = true) (id : Nat) (account : LoyaltyAccount)
    (hg : mapGet (run NewMemoryService ops).loyaltyAccounts id = some account) :
    0 ≤ account.Balance :=
  (nonNegInv_run nonNegInv_new ops hops id account hg).1

theorem balance_nonneg_of_in_bounds_witness :
    runInBounds NewMemoryService sampleOps = true ∧
    mapGet (run NewMemoryService sampleOps).loyaltyAccounts 1 = some sampleAccount ∧
    0 ≤ sampleAccount.Balance :=
  ⟨by decide, by decide, balance_nonneg_of_in_bounds sampleOps (by decide) 1 sampleAccount
    (by decide)⟩

/-- An `EARN` on an existing account always commits. -/
theorem AddTransaction_earn (s : MemoryService) (now : Nat) (accountID : String) (id : Nat)
    (account : LoyaltyAccount) (points : Int) (hp : parseUint32 accountID = some id)
    (hg : mapGet s.loyaltyAccounts id = some account) :
    AddTransaction s now accountID "EARN" points =
      (none, afterCommit s now id "EARN" points account (wrapInt (account.Balance + points))) := by
  simp [AddTransaction, hp, hg, storeTransaction, afterCommit, history, txnRecord]

/-- A `REDEEM` of more than the balance returns the error and the state it got. -/
theorem AddTransaction_redeem_short (s : MemoryService) (now : Nat) (accountID : String)
    (id : Nat) (account : LoyaltyAccount) (points : Int) (hp : parseUint32 accountID = some id)
    (hg : mapGet s.loyaltyAccounts id = some account) (hlt : account.Balance < points) :
    AddTransaction s now accountID "REDEEM" points = (some .insufficientPoints, s) := by
  have hne : ¬ ("REDEEM" = "EARN") := by decide
  simp [AddTransaction, hp, hg, hne, hlt]

/-- A `REDEEM` of at most the balance commits. -/
theorem AddTransaction_redeem_ok (s : MemoryService) (now : Nat) (accountID : String)
    (id : Nat) (account : LoyaltyAccount) (points : Int) (hp : parseUint32 accountID = some id)
    (hg : mapGet s.loyaltyAccounts id = some account) (hle : ¬ account.Balance < points) :
    AddTransaction s now accountID "REDEEM" points =
      (none, afterCommit s now id "REDEEM" points account
        (wrapInt (account.Balance - points))) := by
  have hne : ¬ ("REDEEM" = "EARN") := by decide
  simp [AddTransaction, hp, hg, hne, hle, storeTransaction, afterCommit, history, txnRecord]

theorem GetBalance_afterCommit (s : MemoryService) (now : Nat) (accountID : String) (id : Nat)
    (ty : String) (p : Int) (account : LoyaltyAccount) (nb : Int)
    (hp : parseUint32 accountID = some id) :
    GetBalance (afterCommit s now id ty p account nb) accountID = .ok nb := by
  simp [GetBalance, hp, account_afterCommit_self]

/-- C3, the claim as stated fails: on a new account `EARN` with 0 points and
`REDEEM` with -5 points both return no error and append a transaction, and the
second raises the balance from 0 to 5. -/
theorem addTransaction_accepts_nonpositive_points :
    history freshState 1 = [] ∧ GetBalance freshState "1" = .ok 0 ∧
    (AddTransaction freshState 3 "1" "EARN" 0).1 = none ∧
    history (AddTransaction freshState 3 "1" "EARN" 0).2 1 = [txnRecord 1 3 1 "EARN" 0] ∧
    (AddTransaction freshState 3 "1" "REDEEM" (-5)).1 = none ∧
    history (AddTransaction freshState 3 "1" "REDEEM" (-5)).2 1 =
      [txnRecord 1 3 1 "REDEEM" (-5)] ∧
    GetBalance (AddTransaction freshState 3 "1" "REDEEM" (-5)).2 "1" = .ok 5 := by
  decide

/-- C3, amended. `AddTransaction` does not look at the sign of `points`: for
every existing account with balance `b` and every `points ≤ 0`, `EARN` returns
no error, appends one transaction carrying those points and sets the balance
to `b + points` (in `int`); `REDEEM` returns the insufficient-points error
with the state unchanged when `b < points`, and otherwise returns no error,
appends one transaction and sets the balance to `b - points` (in `int`). -/
theorem addTransaction_nonpositive_points (s : MemoryService) (now : Nat) (accountID : String)
    (id : Nat) (account : LoyaltyAccount) (points : Int)
    (hp : parseUint32 accountID = some id) (hg : mapGet s.loyaltyAccounts id = some account)
    (_hpts : points ≤ 0) :
    ((AddTransaction s now accountID "EARN" points).1 = none ∧
      history (AddTransaction s now accountID "EARN" points).2 id =
        history s id ++ [txnRecord s.nextTxnID now id "EARN" points] ∧
      GetBalance (AddTransaction s now accountID "EARN" points).2 accountID =
        .ok (wrapInt (account.Balance + points))) ∧
    (account.Balance < points →
      AddTransaction s now accountID "REDEEM" points = (some .insufficientPoints, s)) ∧
    (¬ account.Balance < points →
      (AddTransaction s now accountID "REDEEM" points).1 = none ∧
      history (AddTransaction s now accountID "REDEEM" points).2 id =
        history s id ++ [txnRecord s.nextTxnID now id "REDEEM" points] ∧
      GetBalance (AddTransaction s now accountID "REDEEM" points).2 accountID =
        .ok (wrapInt (account.Balance - points))) := by
  refine ⟨?_, ?_, ?_⟩
  · rw [AddTransaction_earn s now accountID id account points hp hg]
    exact ⟨rfl, history_afterCommit_self _ _ _ _ _ _ _, GetBalance_afterCommit _ _ _ _ _ _ _ _ hp⟩
  · exact AddTransaction_redeem_short s now accountID id account points hp hg
  · intro hle
    rw [AddTransaction_redeem_ok s now accountID id account points hp hg hle]
    exact ⟨rfl, history_afterCommit_self _ _ _ _ _ _ _, GetBalance_afterCommit _ _ _ _ _ _ _ _ hp⟩

theorem addTransaction_nonpositive_points_witness :
    parseUint32 "1" = some 1 ∧ mapGet sampleState.loyaltyAccounts 1 = some sampleAccount ∧
    (-3 : Int) ≤ 0 ∧
    GetBalance (AddTransaction sampleState 5 "1" "EARN" (-3)).2 "1" =
      .ok (wrapInt (sampleAccount.Balance + -3)) :=
  ⟨by decide, by decide, by decide,
    (addTransaction_nonpositive_points sampleState 5 "1" 1 sampleAccount (-3) (by decide)
      (by decide) (by decide)).1.2.2⟩

/-- C4. For every existing account with balance `b` and every `points > b`,
`AddTransaction(account, "REDEEM", points)` returns the insufficient-points
error and the state after the call is the state before it: `GetBalance` still
returns `b`, `GetTransactionHistory` returns the same history, and
`nextTxnID` has not advanced. -/
theorem rejected_redeem_leaves_no_trace (s : MemoryService) (now : Nat) (accountID : String)
    (id : Nat) (account : LoyaltyAccount) (points : Int)
    (hp : parseUint32 accountID = some id) (hg : mapGet s.loyaltyAccounts id = some account)
    (hgt : points > account.Balance) :
    (AddTransaction s now accountID "REDEEM" points).1 = some .insufficientPoints ∧
    (AddTransaction s now accountID "REDEEM" points).2 = s ∧
    GetBalance (AddTransaction s now accountID "REDEEM" points).2 accountID =
      .ok account.Balance ∧
    GetTransactionHistory (AddTransaction s now accountID "REDEEM" points).2 accountID =
      GetTransactionHistory s accountID ∧
    history (AddTransaction s now accountID "REDEEM" points).2 id = history s id ∧
    (AddTransaction s now accountID "REDEEM" points).2.nextTxnID = s.nextTxnID := by
  rw [AddTransaction_redeem_short s now accountID id account points hp hg hgt]
  exact ⟨rfl, rfl, GetBalance_eq s accountID id account hp hg, rfl, rfl, rfl⟩

theorem rejected_redeem_leaves_no_trace_witness :
    parseUint32 "1" = some 1 ∧ mapGet sampleState.loyaltyAccounts 1 = some sampleAccount ∧
    (7 : Int) > sampleAccount.Balance ∧
    (AddTransaction sampleState 5 "1" "REDEEM" 7).1 = some .insufficientPoints ∧
    (AddTransaction sampleState 5 "1" "REDEEM" 7).2 = sampleState :=
  have h := rejected_redeem_leaves_no_trace sampleState 5 "1" 1 sampleAccount 7 (by decide)
    (by decide) (by decide)
  ⟨by decide, by decide, by decide, h.1, h.2.1⟩

/-- C5. For every existing account with balance `b` and every `points > 0`,
`AddTransaction(account, "REDEEM", points)` returns the insufficient-points
error if and only if `points > b`; when `points ≤ b`, the boundary
`points = b` included, it returns no error and the new balance is
`b - points`. -/
theorem redeem_fails_iff_exceeds_balance (s : MemoryService) (now : Nat) (accountID : String)
    (id : Nat) (account : LoyaltyAccount) (points : Int)
    (hp : parseUint32 accountID = some id) (hg : mapGet s.loyaltyAccounts id = some account)
    (hb : InIntRange account.Balance) (hpos : points > 0) :
    ((AddTransaction s now accountID "REDEEM" points).1 = some .insufficientPoints ↔
      points > account.Balance) ∧
    (points ≤ account.Balance →
      (AddTransaction s now accountID "REDEEM" points).1 = none ∧
      GetBalance (AddTransaction s now accountID "REDEEM" points).2 accountID =
        .ok (account.Balance - points)) := by
  have hok : points ≤ account.Balance →
      AddTransaction s now accountID "REDEEM" points =
        (none, afterCommit s now id "REDEEM" points account (account.Balance - points)) := by
    intro hle
    have hr : InIntRange (account.Balance - points) := by
      obtain ⟨h1, h2⟩ := hb
      exact ⟨by omega, by omega⟩
    rw [AddTransaction_redeem_ok s now accountID id account points hp hg (by omega),
      wrapInt_of_inRange _ hr]
  constructor
  · constructor
    · intro herr
      by_contra hle
      rw [hok (by omega)] at herr
      simp at herr
    · intro hgt
      rw [AddTransaction_redeem_short s now accountID id account points hp hg hgt]
  · intro hle
    rw [hok hle]
    exact ⟨rfl, GetBalance_afterCommit _ _ _ _ _ _ _ _ hp⟩

theorem redeem_fails_iff_exceeds_balance_witness :
    parseUint32 "1" = some 1 ∧ mapGet sampleState.loyaltyAccounts 1 = some sampleAccount ∧
    InIntRange sampleAccount.Balance ∧ (6 : Int) > 0 ∧
    (AddTransaction sampleState 5 "1" "REDEEM" 6).1 = none ∧
    GetBalance (AddTransaction sampleState 5 "1" "REDEEM" 6).2 "1" = .ok (6 - 6) :=
  ⟨by decide, by decide, by decide, by decide,
    (redeem_fails_iff_exceeds_balance sampleState 5 "1" 1 sampleAccount 6 (by decide)
      (by decide) (by decide) (by decide)).2 (by decide)⟩

/-- C6. For every existing account, every points and every kind string other
than exactly `"EARN"` or `"REDEEM"`, `AddTransaction` returns the
invalid-transaction-type error and the state after the call is the state
before it: the balance, the history and `nextTxnID` are unchanged. -/
theorem unknown_kind_rejected_without_effect (s : MemoryService) (now : Nat)
    (accountID : String) (id : Nat) (account : LoyaltyAccount) (kind : String) (points : Int)
    (hp : parseUint32 accountID = some id) (hg : mapGet s.loyaltyAccounts id = some account)
    (hearn : kind ≠ "EARN") (hredeem : kind ≠ "REDEEM") :
    (AddTransaction s now accountID kind points).1 = some .invalidTransactionType ∧
    (AddTransaction s now accountID kind points).2 = s ∧
    GetBalance (AddTransaction s now accountID kind points).2 accountID = .ok account.Balance ∧
    history (AddTransaction s now accountID kind points).2 id = history s id ∧
    (AddTransaction s now accountID kind points).2.nextTxnID = s.nextTxnID := by
  have h : AddTransaction s now accountID kind points = (some .invalidTransactionType, s) := by
    simp [AddTransaction, hp, hg, hearn, hredeem]
  rw [h]
  exact ⟨rfl, rfl, GetBalance_eq s accountID id account hp hg, rfl, rfl⟩

theorem unknown_kind_rejected_without_effect_witness :
    parseUint32 "1" = some 1 ∧ mapGet sampleState.loyaltyAccounts 1 = some sampleAccount ∧
    "earn" ≠ "EARN" ∧ "earn" ≠ "REDEEM" ∧
    (AddTransaction sampleState 5 "1" "earn" 3).1 = some .invalidTransactionType ∧
    (AddTransaction sampleState 5 "1" "" 3).2 = sampleState :=
  ⟨by decide, by decide, by decide, by decide,
    (unknown_kind_rejected_without_effect sampleState 5 "1" 1 sampleAccount "earn" 3
      (by decide) (by decide) (by decide) (by decide)).1,
    (unknown_kind_rejected_without_effect sampleState 5 "1" 1 sampleAccount "" 3
      (by decide) (by decide) (by decide) (by decide)).2.1⟩

/-! ## Transaction identifiers -/

theorem mem_allTransactions_of_mem_history (s : MemoryService) (id : Nat) (t : Transaction)
    (h : t ∈ history s id) : t ∈ allTransactions s := by
  unfold history at h
  cases hg : mapGet s.transactions id with
  | none => simp [hg] at h
  | some v =>
    simp only [hg, Option.getD_some] at h
    have hm := mapGet_some_mem _ _ _ hg
    unfold allTransactions
    rw [List.mem_flatten]
    exact ⟨v, List.mem_map.mpr ⟨(id, v), hm, rfl⟩, h⟩

/-- Appending a record to one slice of the transaction map adds exactly that
record to the records of the store. -/
theorem flatten_mapSet_append_perm (m : List (Nat × List Transaction)) (k : Nat)
    (t : Transaction) :
    List.Perm ((mapSet m k ((mapGet m k).getD [] ++ [t])).map Prod.snd).flatten
      (t :: (m.map Prod.snd).flatten) := by
  induction m with
  | nil => simp [mapSet, mapGet]
  | cons kv rest ih =>
    obtain ⟨k1, v1⟩ := kv
    by_cases h : k1 = k
    · simp only [mapGet, mapSet, h, if_true, Option.getD_some, List.map_cons,
        List.flatten_cons, List.append_assoc, List.singleton_append]
      exact List.perm_middle
    · simp only [mapGet, mapSet, h, if_false, List.map_cons, List.flatten_cons]
      exact (List.Perm.append_left v1 ih).trans List.perm_middle

theorem allTransactions_afterCommit (s : MemoryService) (now id : Nat) (ty : String) (p : Int)
    (account : LoyaltyAccount) (nb : Int) :
    List.Perm (allTransactions (afterCommit s now id ty p account nb))
      (txnRecord s.nextTxnID now id ty p :: allTransactions s) := by
  unfold allTransactions afterCommit history
  exact flatten_mapSet_append_perm _ _ _

theorem txnInv_new : TxnInv NewMemoryService := by
  constructor <;> simp [NewMemoryService, history, allTransactions, mapGet]

theorem txnInv_step {s : MemoryService} (h : TxnInv s) (op : Op) : TxnInv (step s op) := by
  rcases step_cases s op with e | ⟨now, id, ty, p, account, nb, hg, _, e⟩ |
    ⟨now, uid, kv, h1, h2, e⟩ | ⟨now, email, ph, hg, e⟩ | ⟨id, handle, e⟩
  · rw [e]; exact h
  · rw [e]
    have hperm := allTransactions_afterCommit s now id ty p account nb
    constructor
    · intro j
      by_cases hje : j = id
      · subst hje
        rw [history_afterCommit_self, List.map_append, List.pairwise_append]
        refine ⟨h.increasing j, by simp, ?_⟩
        intro a ha b hb
        simp only [List.map_cons, List.map_nil, List.mem_singleton] at hb
        obtain ⟨t, ht, hta⟩ := List.mem_map.mp ha
        have := h.below_next t (mem_allTransactions_of_mem_history s j t ht)
        rw [hb, ← hta]
        exact this
      · rw [history_afterCommit_ne _ _ _ _ _ _ _ _ hje]
        exact h.increasing j
    · rw [(hperm.map (fun t => t.ID)).nodup_iff, List.map_cons, List.nodup_cons]
      refine ⟨?_, h.nodup⟩
      intro hmem
      obtain ⟨t, ht, hte⟩ := List.mem_map.mp hmem
      have := h.below_next t ht
      simp only [txnRecord] at hte
      omega
    · intro t ht
      have ht2 := hperm.mem_iff.mp ht
      simp only [List.mem_cons] at ht2
      rcases ht2 with ht2 | ht2
      · rw [ht2]; simp [txnRecord, afterCommit]
      · exact Nat.lt_succ_of_lt (h.below_next t ht2)
  · rw [e]; exact ⟨h.increasing, h.nodup, h.below_next⟩
  · rw [e]; exact ⟨h.increasing, h.nodup, h.below_next⟩
  · rw [e]; exact ⟨h.increasing, h.nodup, h.below_next⟩

theorem reachable_txnInv {s : MemoryService} (h : Reachable s) : TxnInv s :=
  reachable_induction txnInv_new (fun _ op ih => txnInv_step ih op) h

/-- C7. In every state reachable from `NewMemoryService`, the IDs in each
account's history, as `GetTransactionHistory` returns it, are strictly
increasing in list order; no two transactions of the whole store have the
same ID; and every recorded ID is smaller than `nextTxnID`. -/
theorem transaction_ids_unique_increasing (s : MemoryService) (hs : Reachable s) :
    (∀ accountID id, parseUint32 accountID = some id →
      ∃ h, GetTransactionHistory s accountID = .ok h ∧
        (h.map (fun t => t.ID)).Pairwise (fun a b => a < b)) ∧
    ((allTransactions s).map (fun t => t.ID)).Nodup ∧
    (∀ t ∈ allTransactions s, t.ID < s.nextTxnID) := by
  have h := reachable_txnInv hs
  exact ⟨fun accountID id hp =>
    ⟨history s id, GetTransactionHistory_eq s accountID id hp, h.increasing id⟩,
    h.nodup, h.below_next⟩

theorem transaction_ids_unique_increasing_witness :
    Reachable sampleState ∧
    ((allTransactions sampleState).map (fun t => t.ID)).Nodup ∧
    (∀ t ∈ allTransactions sampleState, t.ID < sampleState.nextTxnID) :=
  ⟨⟨sampleOps, rfl⟩, (transaction_ids_unique_increasing sampleState ⟨sampleOps, rfl⟩).2⟩

/-! ## The scenario of 100 `EARN(10)` and 50 `REDEEM(5)` -/

/-- From any balance `b ≥ 0` with room for the `EARN`s: after a scenario the
balance is `b + 10 * earns - 5 * r` and the history has `earns + r` more
records, where `r` counts the accepted `REDEEM`s. -/
theorem scenario_balance_and_length (accountID : String) (id : Nat)
    (hp : parseUint32 accountID = some id) (sched : List (Nat × Bool)) :
    ∀ (s : MemoryService) (account : LoyaltyAccount),
      mapGet s.loyaltyAccounts id = some account → 0 ≤ account.Balance →
      account.Balance + 10 * (earnCalls sched : Int) ≤ maxInt →
      acceptedRedeems s accountID sched ≤ redeemCalls sched ∧
      GetBalance (run s (scenarioOps accountID sched)) accountID =
        .ok (account.Balance + 10 * (earnCalls sched : Int)
              - 5 * (acceptedRedeems s accountID sched : Int)) ∧
      (history (run s (scenarioOps accountID sched)) id).length =
        (history s id).length + earnCalls sched + acceptedRedeems s accountID sched := by
  induction sched with
  | nil =>
    intro s account hg _ _
    simp [acceptedRedeems, redeemCalls, earnCalls, scenarioOps, run,
      GetBalance_eq s accountID id account hp hg]
  | cons c rest ih =>
    intro s account hg h0 hmax
    obtain ⟨now, b⟩ := c
    rw [maxInt_eq] at hmax
    cases b with
    | true =>
      have hcount : earnCalls ((now, true) :: rest) = earnCalls rest + 1 := by
        simp [earnCalls]
      have hrc : redeemCalls ((now, true) :: rest) = redeemCalls rest := by
        simp [redeemCalls]
      rw [hcount] at hmax
      have hr : InIntRange (account.Balance + 10) := by
        unfold InIntRange
        norm_num
        omega
      have hstep : step s (scenarioCall accountID (now, true)) =
          afterCommit s now id "EARN" 10 account (account.Balance + 10) := by
        simp only [scenarioCall, if_true, step,
          AddTransaction_earn s now accountID id account 10 hp hg, wrapInt_of_inRange _ hr]
      have hacc : acceptedRedeems s accountID ((now, true) :: rest) =
          acceptedRedeems (afterCommit s now id "EARN" 10 account (account.Balance + 10))
            accountID rest := by
        simp [acceptedRedeems, hstep]
      have hrun : run s (scenarioOps accountID ((now, true) :: rest)) =
          run (afterCommit s now id "EARN" 10 account (account.Balance + 10))
            (scenarioOps accountID rest) := by
        simp only [scenarioOps, List.map_cons, run, List.foldl_cons, hstep]
      obtain ⟨i1, i2, i3⟩ := ih (afterCommit s now id "EARN" 10 account (account.Balance + 10))
        { account with Balance := account.Balance + 10 } (account_afterCommit_self _ _ _ _ _ _ _)
        (by simp only; omega) (by rw [maxInt_eq]; simp only; push_cast at hmax; omega)
      rw [hacc, hrun, hcount, hrc]
      refine ⟨i1, ?_, ?_⟩
      · rw [i2]
        congr 1
        simp only
        push_cast
        omega
      · rw [i3, history_afterCommit_self]
        simp only [List.length_append, List.length_singleton]
        omega
    | false =>
      have hcount : earnCalls ((now, false) :: rest) = earnCalls rest := by
        simp [earnCalls]
      have hrc : redeemCalls ((now, false) :: rest) = redeemCalls rest + 1 := by
        simp [redeemCalls]
      rw [hcount] at hmax
      by_cases hlt : account.Balance < 5
      · have hadd := AddTransaction_redeem_short s now accountID id account 5 hp hg hlt
        have hstep : step s (scenarioCall accountID (now, false)) = s := by
          simp [scenarioCall, step, hadd]
        have hacc : acceptedRedeems s accountID ((now, false) :: rest) =
            acceptedRedeems s accountID rest := by
          simp [acceptedRedeems, hstep, hadd]
        have hrun : run s (scenarioOps accountID ((now, false) :: rest)) =
            run s (scenarioOps accountID rest) := by
          simp only [scenarioOps, List.map_cons, run, List.foldl_cons, hstep]
        obtain ⟨i1, i2, i3⟩ := ih s account hg h0 (by rw [maxInt_eq]; exact hmax)
        rw [hacc, hrun, hcount, hrc]
        exact ⟨Nat.le_succ_of_le i1, i2, i3⟩
      · have hr : InIntRange (account.Balance - 5) := by
          unfold InIntRange
          norm_num
          omega
        have hadd := AddTransaction_redeem_ok s now accountID id account 5 hp hg hlt
        rw [wrapInt_of_inRange _ hr] at hadd
        have hstep : step s (scenarioCall accountID (now, false)) =
            afterCommit s now id "REDEEM" 5 account (account.Balance - 5) := by
          simp [scenarioCall, step, hadd]
        have hacc : acceptedRedeems s accountID ((now, false) :: rest) =
            1 + acceptedRedeems (afterCommit s now id "REDEEM" 5 account (account.Balance - 5))
              accountID rest := by
          simp [acceptedRedeems, hstep, hadd]
        have hrun : run s (scenarioOps accountID ((now, false) :: rest)) =
            run (afterCommit s now id "REDEEM" 5 account (account.Balance - 5))
              (scenarioOps accountID rest) := by
          simp only [scenarioOps, List.map_cons, run, List.foldl_cons, hstep]
        obtain ⟨i1, i2, i3⟩ := ih
          (afterCommit s now id "REDEEM" 5 account (account.Balance - 5))
          { account with Balance := account.Balance - 5 }
          (account_afterCommit_self _ _ _ _ _ _ _)
          (by simp only; omega) (by rw [maxInt_eq]; simp only; omega)
        rw [hacc, hrun, hcount, hrc]
        refine ⟨by omega, ?_, ?_⟩
        · rw [i2]
          congr 1
          simp only
          push_cast
          omega
        · rw [i3, history_afterCommit_self]
          simp only [List.length_append, List.length_singleton]
          omega

/-- C8, the claim as stated fails: when the lock serialises the 50 `REDEEM(5)`
calls before the 100 `EARN(10)` calls, every `REDEEM` finds balance 0 and is
rejected; the final balance is 1000 and the log has 100 entries. -/
theorem redeems_first_ends_at_1000 :
    earnCalls redeemsFirst = 100 ∧ redeemCalls redeemsFirst = 50 ∧
    GetBalance freshState "1" = .ok 0 ∧ history freshState 1 = [] ∧
    GetBalance (run freshState (scenarioOps "1" redeemsFirst)) "1" = .ok 1000 ∧
    (history (run freshState (scenarioOps "1" redeemsFirst)) 1).length = 100 ∧
    ¬ (GetBalance (run freshState (scenarioOps "1" redeemsFirst)) "1" = .ok 750 ∧
       (history (run freshState (scenarioOps "1" redeemsFirst)) 1).length = 150) := by
  set_option maxRecDepth 100000 in decide

/-- C8, amended. Starting from an account with balance 0 and an empty log, for
every order in which the lock serialises the 100 `EARN(10)` and the 50
`REDEEM(5)` calls: with `r` the number of `REDEEM` calls that return no error
(`r ≤ 50`), the final balance is `1000 - 5 * r` and the log has exactly
`100 + r` entries; so the balance is 750 and the log has 150 entries exactly
when no `REDEEM` is rejected. -/
theorem earn_redeem_scenario (s : MemoryService) (accountID : String) (id : Nat)
    (account : LoyaltyAccount) (sched : List (Nat × Bool))
    (hp : parseUint32 accountID = some id) (hg : mapGet s.loyaltyAccounts id = some account)
    (hb : account.Balance = 0) (hh : history s id = [])
    (he : earnCalls sched = 100) (hr : redeemCalls sched = 50) :
    acceptedRedeems s accountID sched ≤ 50 ∧
    GetBalance (run s (scenarioOps accountID sched)) accountID =
      .ok (1000 - 5 * (acceptedRedeems s accountID sched : Int)) ∧
    (history (run s (scenarioOps accountID sched)) id).length =
      100 + acceptedRedeems s accountID sched ∧
    ((GetBalance (run s (scenarioOps accountID sched)) accountID = .ok 750 ∧
      (history (run s (scenarioOps accountID sched)) id).length = 150) ↔
      acceptedRedeems s accountID sched = 50) := by
  obtain ⟨i1, i2, i3⟩ := scenario_balance_and_length accountID id hp sched s account hg
    (by omega) (by rw [maxInt_eq, he, hb]; norm_num)
  rw [he, hb] at i2
  rw [he, hh] at i3
  rw [hr] at i1
  have i2' : GetBalance (run s (scenarioOps accountID sched)) accountID =
      .ok (1000 - 5 * (acceptedRedeems s accountID sched : Int)) := by
    rw [i2]; congr 1
  refine ⟨i1, i2', by rw [i3]; simp, ?_⟩
  rw [i2', i3]
  constructor
  · rintro ⟨_, h2⟩
    simp at h2
    omega
  · intro h
    rw [h]
    exact ⟨by norm_num, by simp⟩

set_option maxRecDepth 100000 in
theorem earn_redeem_scenario_witness :
    parseUint32 "1" = some 1 ∧ mapGet freshState.loyaltyAccounts 1 = some freshAccount ∧
    freshAccount.Balance = 0 ∧ history freshState 1 = [] ∧
    earnCalls earnsFirst = 100 ∧ redeemCalls earnsFirst = 50 ∧
    GetBalance (run freshState (scenarioOps "1" earnsFirst)) "1" = .ok 750 ∧
    (history (run freshState (scenarioOps "1" earnsFirst)) 1).length = 150 :=
  ⟨by decide, by decide, by decide, by decide, by decide, by decide,
    (earn_redeem_scenario freshState "1" 1 freshAccount earnsFirst (by decide) (by decide)
      (by decide) (by decide) (by decide) (by decide)).2.2.2.mpr (by decide)⟩

/-! ## Account creation -/

/-- `CreateLoyaltyAccount` for a known user without an account stores a new
account under `nextAccountID`. -/
theorem CreateLoyaltyAccount_ok (s : MemoryService) (now : Nat) (userID : String) (uid : Nat)
    (hp : parseUint32 userID = some uid)
    (hfree : ∀ kv ∈ s.loyaltyAccounts, kv.2.UserID ≠ uid)
    (huser : ∃ u ∈ s.users, u.2.ID = uid) :
    ∃ kv, kv ∈ s.users ∧ kv.2.ID = uid ∧
      CreateLoyaltyAccount s now userID =
        (.ok (accountRecord s.nextAccountID now uid kv.2),
         { s with
           loyaltyAccounts := mapSet s.loyaltyAccounts s.nextAccountID
             (accountRecord s.nextAccountID now uid kv.2),
           nextAccountID := s.nextAccountID + 1 }) := by
  have hany : s.loyaltyAccounts.any (fun kv => kv.2.UserID == uid) = false := by
    rw [List.any_eq_false]
    intro kv hkv
    simpa using hfree kv hkv
  cases hf : s.users.find? (fun kv => kv.2.ID == uid) with
  | none =>
    obtain ⟨u, hu, hue⟩ := huser
    have := List.find?_eq_none.mp hf u hu
    simp [hue] at this
  | some kv =>
    refine ⟨kv, List.mem_of_find?_eq_some hf, by simpa using List.find?_some hf, ?_⟩
    simp only [CreateLoyaltyAccount, hp, hany, hf]
    rfl

/-- `CreateLoyaltyAccount` for a user who has an account returns the
already-exists error and the state it got. -/
theorem CreateLoyaltyAccount_exists (s : MemoryService) (now : Nat) (userID : String)
    (uid : Nat) (hp : parseUint32 userID = some uid)
    (hacc : ∃ kv ∈ s.loyaltyAccounts, kv.2.UserID = uid) :
    CreateLoyaltyAccount s now userID = (.error .loyaltyAccountAlreadyExists, s) := by
  have hany : s.loyaltyAccounts.any (fun kv => kv.2.UserID == uid) = true := by
    rw [List.any_eq_true]
    obtain ⟨kv, hkv, he⟩ := hacc
    exact ⟨kv, hkv, by simp [he]⟩
  simp only [CreateLoyaltyAccount, hp, hany, if_true]

/-- C9. For a user ID string that denotes `uid`, in a reachable state:
when a user with ID `uid` exists and no account has that `UserID`,
`CreateLoyaltyAccount` returns an account with `Balance` 0, `UserID` `uid` and
an ID no existing account uses, and the state after the call is the state
before it with that account stored under its ID and `nextAccountID` advanced;
when some account has that `UserID` it returns the already-exists error, and
when no user has ID `uid` it returns the user-not-found error, both with the
state unchanged. -/
theorem createLoyaltyAccount_contract (s : MemoryService) (hs : Reachable s) (now : Nat)
    (userID : String) (uid : Nat) (hp : parseUint32 userID = some uid) :
    ((∃ u ∈ s.users, u.2.ID = uid) → (∀ kv ∈ s.loyaltyAccounts, kv.2.UserID ≠ uid) →
      ∃ account, (CreateLoyaltyAccount s now userID).1 = .ok account ∧
        account.Balance = 0 ∧ account.UserID = uid ∧
        (∃ u ∈ s.users, u.2.ID = uid ∧ account.User = u.2) ∧
        (∀ kv ∈ s.loyaltyAccounts, kv.1 ≠ account.ID ∧ kv.2.ID ≠ account.ID) ∧
        mapGet s.loyaltyAccounts account.ID = none ∧
        mapGet (CreateLoyaltyAccount s now userID).2.loyaltyAccounts account.ID =
          some account ∧
        (CreateLoyaltyAccount s now userID).2 =
          { s with loyaltyAccounts := s.loyaltyAccounts ++ [(account.ID, account)],
                   nextAccountID := s.nextAccountID + 1 }) ∧
    ((∃ kv ∈ s.loyaltyAccounts, kv.2.UserID = uid) →
      CreateLoyaltyAccount s now userID = (.error .loyaltyAccountAlreadyExists, s)) ∧
    ((∀ u ∈ s.users, u.2.ID ≠ uid) →
      CreateLoyaltyAccount s now userID = (.error .userNotFound, s)) := by
  have hid := reachable_idInv hs
  refine ⟨?_, CreateLoyaltyAccount_exists s now userID uid hp, ?_⟩
  · intro huser hfree
    obtain ⟨kv, hkv, hkid, he⟩ := CreateLoyaltyAccount_ok s now userID uid hp hfree huser
    have hnone := idInv_next_account_free hid
    refine ⟨accountRecord s.nextAccountID now uid kv.2, by rw [he], rfl, rfl,
      ⟨kv, hkv, hkid, rfl⟩, ?_, hnone, ?_, ?_⟩
    · intro x hx
      have h1 := hid.acct_lt x hx
      have h2 := hid.acct_id x hx
      simp only [accountRecord]
      omega
    · rw [he]
      exact mapGet_mapSet_self _ _ _
    · rw [he]
      simp only [mapSet_of_none _ _ _ hnone]
      rfl
  · intro hnouser
    have hany : s.loyaltyAccounts.any (fun kv => kv.2.UserID == uid) = false := by
      rw [List.any_eq_false]
      intro kv hkv
      obtain ⟨u, hu, hue⟩ := hid.acct_user kv hkv
      have := hnouser u hu
      simp only [beq_iff_eq]
      omega
    have hf : s.users.find? (fun kv => kv.2.ID == uid) = none := by
      rw [List.find?_eq_none]
      intro u hu
      simpa using hnouser u hu
    simp only [CreateLoyaltyAccount, hp, hany, hf]
    rfl

theorem createLoyaltyAccount_contract_witness :
    Reachable userOnlyState ∧ Reachable sampleState ∧
    parseUint32 "1" = some 1 ∧ parseUint32 "7" = some 7 ∧
    (∃ account, (CreateLoyaltyAccount userOnlyState 2 "1").1 = .ok account ∧
      account.Balance = 0 ∧ account.UserID = 1) ∧
    CreateLoyaltyAccount sampleState 9 "1" = (.error .loyaltyAccountAlreadyExists, sampleState) ∧
    CreateLoyaltyAccount sampleState 9 "7" = (.error .userNotFound, sampleState) :=
  have h := (createLoyaltyAccount_contract userOnlyState
    ⟨[.createUser 1 "a@b.c" "hash"], rfl⟩ 2 "1" 1 (by decide)).1
      ⟨("a@b.c", userRecord 1 1 "a@b.c" "hash"), by decide, by decide⟩ (by decide)
  ⟨⟨[.createUser 1 "a@b.c" "hash"], rfl⟩, ⟨sampleOps, rfl⟩, by decide, by decide,
    h.elim (fun account ha => ⟨account, ha.1, ha.2.1, ha.2.2.1⟩),
    (createLoyaltyAccount_contract sampleState ⟨sampleOps, rfl⟩ 9 "1" 1 (by decide)).2.1
      ⟨(1, sampleAccount), by decide, by decide⟩,
    (createLoyaltyAccount_contract sampleState ⟨sampleOps, rfl⟩ 9 "7" 7 (by decide)).2.2
      (by decide)⟩

/-- C10. In every state reachable from `NewMemoryService` no two stored
accounts have the same `UserID`; and of two `CreateLoyaltyAccount` calls for
the same existing identity that owns no account yet, whichever the lock lets
run first returns an account and the other returns the already-exists error. -/
theorem one_account_per_identity (s : MemoryService) (hs : Reachable s) :
    (s.loyaltyAccounts.map (fun kv => kv.2.UserID)).Nodup ∧
    ∀ (now1 now2 : Nat) (userID1 userID2 : String) (uid : Nat),
      parseUint32 userID1 = some uid → parseUint32 userID2 = some uid →
      (∃ u ∈ s.users, u.2.ID = uid) → (∀ kv ∈ s.loyaltyAccounts, kv.2.UserID ≠ uid) →
      (∃ account, (CreateLoyaltyAccount s now1 userID1).1 = .ok account) ∧
      (CreateLoyaltyAccount (CreateLoyaltyAccount s now1 userID1).2 now2 userID2).1 =
        .error .loyaltyAccountAlreadyExists := by
  refine ⟨(reachable_idInv hs).user_nodup, ?_⟩
  intro now1 now2 userID1 userID2 uid hp1 hp2 huser hfree
  obtain ⟨kv, _, _, he⟩ := CreateLoyaltyAccount_ok s now1 userID1 uid hp1 hfree huser
  refine ⟨⟨_, by rw [he]⟩, ?_⟩
  rw [CreateLoyaltyAccount_exists _ now2 userID2 uid hp2]
  rw [he]
  refine ⟨(s.nextAccountID, accountRecord s.nextAccountID now1 uid kv.2), ?_, rfl⟩
  exact mapGet_some_mem _ _ _ (mapGet_mapSet_self _ _ _)

theorem one_account_per_identity_witness :
    Reachable userOnlyState ∧ parseUint32 "1" = some 1 ∧ parseUint32 "01" = some 1 ∧
    (userOnlyState.loyaltyAccounts.map (fun kv => kv.2.UserID)).Nodup ∧
    (∃ account, (CreateLoyaltyAccount userOnlyState 2 "1").1 = .ok account) ∧
    (CreateLoyaltyAccount (CreateLoyaltyAccount userOnlyState 2 "1").2 3 "01").1 =
      .error .loyaltyAccountAlreadyExists :=
  have h := one_account_per_identity userOnlyState ⟨[.createUser 1 "a@b.c" "hash"], rfl⟩
  ⟨⟨[.createUser 1 "a@b.c" "hash"], rfl⟩, by decide, by decide, h.1,
    h.2 2 3 "1" "01" 1 (by decide) (by decide)
      ⟨("a@b.c", userRecord 1 1 "a@b.c" "hash"), by decide, by decide⟩ (by decide)⟩

/-! ## The log: visibility, append-only, timestamps -/

/-- C11. If `AddTransaction(account, kind, points)` returns no error on a
state whose history for that account is `h`, then `GetTransactionHistory` for
the account returned `h` before the call and returns, on the resulting state,
`h` followed by exactly one new transaction, whose `AccountID` is the
account, whose `Type` is `kind` and whose `Points` is `points`. -/
theorem committed_transaction_is_last_in_history (s : MemoryService) (now : Nat)
    (accountID kind : String) (points : Int)
    (hok : (AddTransaction s now accountID kind points).1 = none) :
    ∃ id h t, parseUint32 accountID = some id ∧
      GetTransactionHistory s accountID = .ok h ∧
      GetTransactionHistory (AddTransaction s now accountID kind points).2 accountID =
        .ok (h ++ [t]) ∧
      t.AccountID = id ∧ t.TxnType = kind ∧ t.Points = points ∧ t.ID = s.nextTxnID ∧
      t.Timestamp = now := by
  rcases AddTransaction_cases s now accountID kind points with
    ⟨e, he⟩ | ⟨id, account, nb, hp, _, _, he⟩
  · rw [he] at hok
    simp at hok
  · refine ⟨id, history s id, txnRecord s.nextTxnID now id kind points, hp,
      GetTransactionHistory_eq s accountID id hp, ?_, rfl, rfl, rfl, rfl, rfl⟩
    rw [he, GetTransactionHistory_eq _ accountID id hp, history_afterCommit_self]

theorem committed_transaction_is_last_in_history_witness :
    (AddTransaction sampleState 5 "1" "EARN" 3).1 = none ∧
    ∃ id h t, parseUint32 "1" = some id ∧
      GetTransactionHistory sampleState "1" = .ok h ∧
      GetTransactionHistory (AddTransaction sampleState 5 "1" "EARN" 3).2 "1" =
        .ok (h ++ [t]) ∧
      t.AccountID = id ∧ t.TxnType = "EARN" ∧ t.Points = 3 ∧ t.ID = sampleState.nextTxnID ∧
      t.Timestamp = 5 :=
  ⟨by decide, committed_transaction_is_last_in_history sampleState 5 "1" "EARN" 3 (by decide)⟩

/-- One call keeps every history as a prefix of the history after it. -/
theorem history_prefix_step (s : MemoryService) (op : Op) (id : Nat) :
    history s id <+: history (step s op) id := by
  rcases step_cases s op with e | ⟨now, j, ty, p, account, nb, _, _, e⟩ |
    ⟨now, uid, kv, _, _, e⟩ | ⟨now, email, ph, _, e⟩ | ⟨j, handle, e⟩
  · rw [e]
  · rw [e]
    by_cases hje : id = j
    · subst hje
      rw [history_afterCommit_self]
      exact List.prefix_append _ _
    · rw [history_afterCommit_ne _ _ _ _ _ _ _ _ hje]
  · rw [e]; exact List.prefix_refl _
  · rw [e]; exact List.prefix_refl _
  · rw [e]; exact List.prefix_refl _

/-- C12. For every state-changing call of the store (`CreateUser`,
`CreateLoyaltyAccount`, `AddTransaction`, `UpdateSquareLoyaltyID`, with any
arguments and any outcome), every sequence of such calls, and every account,
the account's history before is a prefix of its history after, also as
`GetTransactionHistory` returns it.  The read methods are functions of the
state and return no new state. -/
theorem transaction_log_append_only (s : MemoryService) (id : Nat) :
    (∀ op, history s id <+: history (step s op) id) ∧
    (∀ ops, history s id <+: history (run s ops) id) ∧
    (∀ ops accountID, parseUint32 accountID = some id →
      ∃ h1 h2, GetTransactionHistory s accountID = .ok h1 ∧
        GetTransactionHistory (run s ops) accountID = .ok h2 ∧ h1 <+: h2) := by
  have hrun : ∀ ops (s : MemoryService), history s id <+: history (run s ops) id := by
    intro ops
    induction ops with
    | nil => intro s; exact List.prefix_refl _
    | cons op ops ih =>
      intro s
      exact (history_prefix_step s op id).trans (ih (step s op))
  refine ⟨fun op => history_prefix_step s op id, fun ops => hrun ops s, ?_⟩
  intro ops accountID hp
  exact ⟨_, _, GetTransactionHistory_eq s accountID id hp,
    GetTransactionHistory_eq _ accountID id hp, hrun ops s⟩

/-- C13, the claim as stated fails: `AddTransaction` at clock time 3 on the
account created at time 2 returns no error and the account's `UpdatedAt` is
still 2, while the new transaction carries time 3. -/
theorem updatedAt_not_advanced_by_commit :
    mapGet freshState.loyaltyAccounts 1 = some freshAccount ∧ freshAccount.UpdatedAt = 2 ∧
    (AddTransaction freshState 3 "1" "EARN" 10).1 = none ∧
    (mapGet (AddTransaction freshState 3 "1" "EARN" 10).2.loyaltyAccounts 1).map
      (fun a => a.UpdatedAt) = some 2 ∧
    (history (AddTransaction freshState 3 "1" "EARN" 10).2 1).map
      (fun t => (t.Timestamp, t.UpdatedAt)) = [(3, 3)] := by
  decide

/-- C13, amended. A successful `AddTransaction` at clock time `t` does not
write the account's `UpdatedAt`: the account after the call is the account
before it with only `Balance` changed, so `UpdatedAt` (like `CreatedAt`) keeps
the value it had; the commit time `t` is stored in the new transaction's
`Timestamp`, `CreatedAt` and `UpdatedAt`. -/
theorem commit_keeps_account_updatedAt (s : MemoryService) (now : Nat)
    (accountID kind : String) (points : Int) (id : Nat) (account : LoyaltyAccount)
    (hp : parseUint32 accountID = some id) (hg : mapGet s.loyaltyAccounts id = some account)
    (hok : (AddTransaction s now accountID kind points).1 = none) :
    ∃ account1 t,
      mapGet (AddTransaction s now accountID kind points).2.loyaltyAccounts id =
        some account1 ∧
      account1 = { account with Balance := account1.Balance } ∧
      account1.UpdatedAt = account.UpdatedAt ∧ account1.CreatedAt = account.CreatedAt ∧
      history (AddTransaction s now accountID kind points).2 id = history s id ++ [t] ∧
      t.Timestamp = now ∧ t.CreatedAt = now ∧ t.UpdatedAt = now := by
  rcases AddTransaction_cases s now accountID kind points with
    ⟨e, he⟩ | ⟨id1, account0, nb, hp1, hg1, _, he⟩
  · rw [he] at hok
    simp at hok
  · rw [hp] at hp1
    have hid : id = id1 := Option.some.inj hp1
    subst hid
    rw [hg] at hg1
    have hacc : account = account0 := Option.some.inj hg1
    subst hacc
    refine ⟨{ account with Balance := nb }, txnRecord s.nextTxnID now id kind points,
      ?_, rfl, rfl, rfl, ?_, rfl, rfl, rfl⟩
    · rw [he]; exact account_afterCommit_self _ _ _ _ _ _ _
    · rw [he]; exact history_afterCommit_self _ _ _ _ _ _ _

theorem commit_keeps_account_updatedAt_witness :
    parseUint32 "1" = some 1 ∧ mapGet freshState.loyaltyAccounts 1 = some freshAccount ∧
    (AddTransaction freshState 3 "1" "EARN" 10).1 = none ∧
    ∃ account1 t,
      mapGet (AddTransaction freshState 3 "1" "EARN" 10).2.loyaltyAccounts 1 =
        some account1 ∧
      account1 = { freshAccount with Balance := account1.Balance } ∧
      account1.UpdatedAt = freshAccount.UpdatedAt ∧
      account1.CreatedAt = freshAccount.CreatedAt ∧
      history (AddTransaction freshState 3 "1" "EARN" 10).2 1 = history freshState 1 ++ [t] ∧
      t.Timestamp = 3 ∧ t.CreatedAt = 3 ∧ t.UpdatedAt = 3 :=
  ⟨by decide, by decide, by decide,
    commit_keeps_account_updatedAt freshState 3 "1" "EARN" 10 1 freshAccount (by decide)
      (by decide) (by decide)⟩

theorem transaction_log_append_only_witness :
    history freshState 1 <+: history (run freshState [.addTransaction 3 "1" "EARN" 10]) 1 ∧
    ∃ h1 h2, GetTransactionHistory sampleState "1" = .ok h1 ∧
      GetTransactionHistory (run sampleState [.addTransaction 5 "1" "REDEEM" 2]) "1" = .ok h2 ∧
      h1 <+: h2 :=
  ⟨(transaction_log_append_only freshState 1).2.1 _,
    (transaction_log_append_only sampleState 1).2.2 _ "1" (by decide)⟩

/-! ## Lookup of an account by its user -/

theorem reachable_run {s : MemoryService} (h : Reachable s) (ops : List Op) :
    Reachable (run s ops) := by
  induction ops generalizing s with
  | nil => exact h
  | cons op ops ih => exact ih (reachable_step h op)

/-- An account stays under its key, with its `ID` and `UserID`, through every call. -/
theorem account_persists_step {s : MemoryService} (hid : IdInv s) (op : Op) (k : Nat)
    (acct : LoyaltyAccount) (hg : mapGet s.loyaltyAccounts k = some acct) :
    ∃ acct1, mapGet (step s op).loyaltyAccounts k = some acct1 ∧
      acct1.ID = acct.ID ∧ acct1.UserID = acct.UserID := by
  rcases step_cases s op with e | ⟨now, j, ty, p, account, nb, hj, _, e⟩ |
    ⟨now, uid, kv, _, _, e⟩ | ⟨now, email, ph, _, e⟩ | ⟨j, handle, e⟩
  · rw [e]; exact ⟨acct, hg, rfl, rfl⟩
  · rw [e]
    by_cases hkj : k = j
    · subst hkj
      rw [hg] at hj
      have : acct = account := Option.some.inj hj
      subst this
      exact ⟨_, account_afterCommit_self _ _ _ _ _ _ _, rfl, rfl⟩
    · rw [account_afterCommit_ne _ _ _ _ _ _ _ _ hkj]
      exact ⟨acct, hg, rfl, rfl⟩
  · rw [e]
    have hne : k ≠ s.nextAccountID := by
      intro hk
      rw [hk, idInv_next_account_free hid] at hg
      simp at hg
    simp only [mapGet_mapSet_ne _ _ _ _ hne]
    exact ⟨acct, hg, rfl, rfl⟩
  · rw [e]; exact ⟨acct, hg, rfl, rfl⟩
  · rw [e]; exact ⟨acct, hg, rfl, rfl⟩

theorem account_persists_run (ops : List Op) :
    ∀ {s : MemoryService}, Reachable s → ∀ (k : Nat) (acct : LoyaltyAccount),
      mapGet s.loyaltyAccounts k = some acct →
      ∃ acct1, mapGet (run s ops).loyaltyAccounts k = some acct1 ∧
        acct1.ID = acct.ID ∧ acct1.UserID = acct.UserID := by
  induction ops with
  | nil => intro s _ k acct hg; exact ⟨acct, hg, rfl, rfl⟩
  | cons op ops ih =>
    intro s hs k acct hg
    obtain ⟨a1, h1, h2, h3⟩ := account_persists_step (reachable_idInv hs) op k acct hg
    obtain ⟨a2, g1, g2, g3⟩ := ih (reachable_step hs op) k a1 h1
    exact ⟨a2, g1, g2.trans h2, g3.trans h3⟩

/-- When the stored accounts have pairwise distinct `UserID`s and one of them
belongs to `uid`, a search for `uid` finds that account in whatever order the
entries are visited. -/
theorem find_account_any_order (m l : List (Nat × LoyaltyAccount)) (uid k : Nat)
    (acct : LoyaltyAccount) (hnd : (m.map (fun kv => kv.2.UserID)).Nodup)
    (hmem : (k, acct) ∈ m) (hu : acct.UserID = uid) (hperm : l.Perm m) :
    l.find? (fun kv => kv.2.UserID == uid) = some (k, acct) := by
  cases hf : l.find? (fun kv => kv.2.UserID == uid) with
  | none =>
    have := List.find?_eq_none.mp hf (k, acct) (hperm.mem_iff.mpr hmem)
    simp [hu] at this
  | some kv =>
    have hkv : kv ∈ m := hperm.mem_iff.mp (List.mem_of_find?_eq_some hf)
    have hkvu : kv.2.UserID = uid := by simpa using List.find?_some hf
    have := List.inj_on_of_nodup_map hnd hkv hmem (by simp [hkvu, hu])
    rw [this]

theorem GetLoyaltyAccountByUserID_none (s : MemoryService) (userID : String) (uid : Nat)
    (hp : parseUint32 userID = some uid)
    (hfree : ∀ kv ∈ s.loyaltyAccounts, kv.2.UserID ≠ uid) :
    GetLoyaltyAccountByUserID s userID = .error .loyaltyAccountNotFound := by
  have hf : s.loyaltyAccounts.find? (fun kv => kv.2.UserID == uid) = none := by
    rw [List.find?_eq_none]
    intro kv hkv
    simpa using hfree kv hkv
  simp [GetLoyaltyAccountByUserID, hp, hf]

/-- C14. After `CreateLoyaltyAccount(userID)` returns account `a` in a
reachable state, in the state after any further sequence of calls
`GetLoyaltyAccountByUserID`, for any string denoting the same user, returns
an account with `ID = a.ID` and `UserID` that user; that account is the only
stored one with this `UserID`, so a search visiting the entries in any order
finds it.  For a user ID that no stored account has, in any state, it returns
the loyalty-account-not-found error. -/
theorem account_lookup_by_user (s : MemoryService) (hs : Reachable s) (now : Nat)
    (userID : String) (a : LoyaltyAccount)
    (hc : (CreateLoyaltyAccount s now userID).1 = .ok a) :
    (parseUint32 userID = some a.UserID ∧
      ∀ (ops : List Op) (userID1 : String), parseUint32 userID1 = some a.UserID →
        ∃ acct, GetLoyaltyAccountByUserID (run (CreateLoyaltyAccount s now userID).2 ops)
            userID1 = .ok acct ∧
          acct.ID = a.ID ∧ acct.UserID = a.UserID ∧
          ∀ l : List (Nat × LoyaltyAccount),
            l.Perm (run (CreateLoyaltyAccount s now userID).2 ops).loyaltyAccounts →
            (l.find? (fun kv => kv.2.UserID == a.UserID)).map Prod.snd = some acct) ∧
    (∀ (t : MemoryService) (userID1 : String) (uid : Nat), parseUint32 userID1 = some uid →
      (∀ kv ∈ t.loyaltyAccounts, kv.2.UserID ≠ uid) →
      GetLoyaltyAccountByUserID t userID1 = .error .loyaltyAccountNotFound) := by
  refine ⟨?_, fun t userID1 uid hp hfree => GetLoyaltyAccountByUserID_none t userID1 uid hp hfree⟩
  rcases CreateLoyaltyAccount_cases s now userID with ⟨e, he⟩ | ⟨uid, kv, hp, _, _, he⟩
  · rw [he] at hc
    simp at hc
  · rw [he] at hc
    have ha : accountRecord s.nextAccountID now uid kv.2 = a := by
      simpa using hc
    have hau : a.UserID = uid := by rw [← ha]; rfl
    have hai : a.ID = s.nextAccountID := by rw [← ha]; rfl
    rw [hau]
    refine ⟨hp, ?_⟩
    intro ops userID1 hp1
    have hs1 : Reachable (CreateLoyaltyAccount s now userID).2 := by
      have := reachable_step hs (.createLoyaltyAccount now userID)
      simpa [step] using this
    have hg1 : mapGet (CreateLoyaltyAccount s now userID).2.loyaltyAccounts s.nextAccountID =
        some a := by
      rw [he, ← ha]
      exact mapGet_mapSet_self _ _ _
    obtain ⟨acct, hg2, hi, hu⟩ := account_persists_run ops hs1 s.nextAccountID a hg1
    have hinv := reachable_idInv (reachable_run hs1 ops)
    have hmem := mapGet_some_mem _ _ _ hg2
    have hfind := fun l hperm => find_account_any_order
      (run (CreateLoyaltyAccount s now userID).2 ops).loyaltyAccounts l uid s.nextAccountID acct
      hinv.user_nodup hmem (hu.trans hau) hperm
    refine ⟨acct, ?_, hi, hu.trans hau, ?_⟩
    · simp [GetLoyaltyAccountByUserID, hp1, hfind _ (List.Perm.refl _)]
    · intro l hperm
      rw [hfind l hperm]
      rfl

theorem account_lookup_by_user_witness :
    Reachable userOnlyState ∧
    (CreateLoyaltyAccount userOnlyState 2 "1").1 = .ok freshAccount ∧
    ∃ acct, GetLoyaltyAccountByUserID
        (run (CreateLoyaltyAccount userOnlyState 2 "1").2 [.addTransaction 3 "1" "EARN" 10])
        "01" = .ok acct ∧
      acct.ID = freshAccount.ID ∧ acct.UserID = freshAccount.UserID :=
  have h := (account_lookup_by_user userOnlyState ⟨[.createUser 1 "a@b.c" "hash"], rfl⟩ 2 "1"
    freshAccount (by decide)).1.2 [.addTransaction 3 "1" "EARN" 10] "01" (by decide)
  ⟨⟨[.createUser 1 "a@b.c" "hash"], rfl⟩, by decide,
    h.elim (fun acct ha => ⟨acct, ha.1, ha.2.1, ha.2.2.1⟩)⟩

/-! ## The external handle -/

/-- A call that does not link account `id` leaves its handle entry as it was. -/
theorem handle_step_of_not_links (s : MemoryService) (op : Op) (id : Nat)
    (h : linksFor id s op = false) :
    mapGet (step s op).squareLoyaltyIDs id = mapGet s.squareLoyaltyIDs id := by
  cases op with
  | createUser now email passwordHash =>
    rcases CreateUser_cases s now email passwordHash with ⟨e, he⟩ | ⟨_, he⟩ <;>
      simp only [step, he]
  | createLoyaltyAccount now userID =>
    rcases CreateLoyaltyAccount_cases s now userID with ⟨e, he⟩ | ⟨uid, kv, _, _, _, he⟩ <;>
      simp only [step, he]
  | addTransaction now accountID transactionType points =>
    rcases AddTransaction_cases s now accountID transactionType points with
      ⟨e, he⟩ | ⟨j, account, nb, _, _, _, he⟩ <;> simp only [step, he, afterCommit]
  | updateSquareLoyaltyID accountID squareLoyaltyID =>
    rcases UpdateSquareLoyaltyID_cases s accountID squareLoyaltyID with ⟨e, he⟩ | ⟨j, hp, he⟩
    · simp only [step, he]
    · simp only [step, he]
      have hne : id ≠ j := by
        intro hij
        simp [linksFor, hp, he, hij] at h
      exact mapGet_mapSet_ne _ _ _ _ hne

/-- An existing account exists after every call. -/
theorem account_exists_step (s : MemoryService) (op : Op) (id : Nat)
    (h : (mapGet s.loyaltyAccounts id).isSome = true) :
    (mapGet (step s op).loyaltyAccounts id).isSome = true := by
  rcases step_cases s op with e | ⟨now, j, ty, p, account, nb, _, _, e⟩ |
    ⟨now, uid, kv, _, _, e⟩ | ⟨now, email, ph, _, e⟩ | ⟨j, handle, e⟩
  · rw [e]; exact h
  · rw [e]
    by_cases hij : id = j
    · subst hij
      rw [account_afterCommit_self]; rfl
    · rw [account_afterCommit_ne _ _ _ _ _ _ _ _ hij]; exact h
  · rw [e]
    by_cases hij : id = s.nextAccountID
    · subst hij
      simp only [mapGet_mapSet_self]; rfl
    · simp only [mapGet_mapSet_ne _ _ _ _ hij]; exact h
  · rw [e]; exact h
  · rw [e]; exact h

theorem handle_none_of_neverLinked (ops : List Op) (id : Nat) :
    ∀ s : MemoryService, mapGet s.squareLoyaltyIDs id = none → neverLinked id s ops = true →
      mapGet (run s ops).squareLoyaltyIDs id = none := by
  induction ops with
  | nil => intro s h _; exact h
  | cons op ops ih =>
    intro s h hnl
    simp only [neverLinked, Bool.and_eq_true, Bool.not_eq_true'] at hnl
    exact ih (step s op) ((handle_step_of_not_links s op id hnl.1).trans h) hnl.2

theorem GetSquareLoyaltyID_eq (s : MemoryService) (accountID : String) (id : Nat)
    (hp : parseUint32 accountID = some id)
    (hex : (mapGet s.loyaltyAccounts id).isSome = true) :
    GetSquareLoyaltyID s accountID = .ok ((mapGet s.squareLoyaltyIDs id).getD "") := by
  cases hg : mapGet s.loyaltyAccounts id with
  | none => simp [hg] at hex
  | some account =>
    cases hh : mapGet s.squareLoyaltyIDs id <;> simp [GetSquareLoyaltyID, hp, hg, hh]

theorem UpdateSquareLoyaltyID_ok (s : MemoryService) (accountID handle : String) (id : Nat)
    (hp : parseUint32 accountID = some id)
    (hex : (mapGet s.loyaltyAccounts id).isSome = true) :
    UpdateSquareLoyaltyID s accountID handle =
      (none, { s with squareLoyaltyIDs := mapSet s.squareLoyaltyIDs id handle }) := by
  cases hg : mapGet s.loyaltyAccounts id with
  | none => simp [hg] at hex
  | some account => simp [UpdateSquareLoyaltyID, hp, hg]

/-- C15. For an existing account that no call of the run has linked,
`GetSquareLoyaltyID` returns the empty string and no error.  In any state,
`UpdateSquareLoyaltyID(account, h)` on an existing account returns no error,
after it `GetSquareLoyaltyID(account)` returns `h`, and `GetSquareLoyaltyID`
returns for every other account what it returned before.  For an account
that does not exist both methods return the account-not-found error and the
state is unchanged. -/
theorem external_handle_round_trip :
    (∀ (ops : List Op) (accountID : String) (id : Nat),
      parseUint32 accountID = some id → neverLinked id NewMemoryService ops = true →
      (mapGet (run NewMemoryService ops).loyaltyAccounts id).isSome = true →
      GetSquareLoyaltyID (run NewMemoryService ops) accountID = .ok "") ∧
    (∀ (s : MemoryService) (accountID h : String) (id : Nat),
      parseUint32 accountID = some id → (mapGet s.loyaltyAccounts id).isSome = true →
      (UpdateSquareLoyaltyID s accountID h).1 = none ∧
      GetSquareLoyaltyID (UpdateSquareLoyaltyID s accountID h).2 accountID = .ok h ∧
      ∀ (other : String) (j : Nat), parseUint32 other = some j → j ≠ id →
        GetSquareLoyaltyID (UpdateSquareLoyaltyID s accountID h).2 other =
          GetSquareLoyaltyID s other) ∧
    (∀ (s : MemoryService) (accountID h : String) (id : Nat),
      parseUint32 accountID = some id → mapGet s.loyaltyAccounts id = none →
      UpdateSquareLoyaltyID s accountID h = (some .accountNotFound, s) ∧
      GetSquareLoyaltyID s accountID = .error .accountNotFound) := by
  refine ⟨?_, ?_, ?_⟩
  · intro ops accountID id hp hnl hex
    rw [GetSquareLoyaltyID_eq _ accountID id hp hex,
      handle_none_of_neverLinked ops id NewMemoryService rfl hnl]
    rfl
  · intro s accountID h id hp hex
    rw [UpdateSquareLoyaltyID_ok s accountID h id hp hex]
    refine ⟨rfl, ?_, ?_⟩
    · simp only []
      rw [GetSquareLoyaltyID_eq _ accountID id hp (by exact hex)]
      simp [mapGet_mapSet_self]
    · intro other j hpo hne
      simp [GetSquareLoyaltyID, hpo, mapGet_mapSet_ne _ _ _ _ hne]
  · intro s accountID h id hp hg
    exact ⟨by simp [UpdateSquareLoyaltyID, hp, hg], by simp [GetSquareLoyaltyID, hp, hg]⟩

theorem external_handle_round_trip_witness :
    parseUint32 "1" = some 1 ∧ parseUint32 "9" = some 9 ∧
    neverLinked 1 NewMemoryService sampleOps = true ∧
    GetSquareLoyaltyID (run NewMemoryService sampleOps) "1" = .ok "" ∧
    GetSquareLoyaltyID (UpdateSquareLoyaltyID sampleState "1" "loyalty-x").2 "1" =
      .ok "loyalty-x" ∧
    UpdateSquareLoyaltyID sampleState "9" "loyalty-x" = (some .accountNotFound, sampleState) :=
  ⟨by decide, by decide, by decide,
    external_handle_round_trip.1 sampleOps "1" 1 (by decide) (by decide) (by decide),
    (external_handle_round_trip.2.1 sampleState "1" "loyalty-x" 1 (by decide) (by decide)).2.1,
    (external_handle_round_trip.2.2 sampleState "9" "loyalty-x" 9 (by decide) (by decide)).1⟩

/-- C16, the claim as stated fails: the account of `linkedState` is linked to
`"loyalty-x"`; `UpdateSquareLoyaltyID` with the empty string returns no error
and `GetSquareLoyaltyID` then returns the empty string. -/
theorem relink_with_empty_handle_unlinks :
    GetSquareLoyaltyID linkedState "1" = .ok "loyalty-x" ∧
    (UpdateSquareLoyaltyID linkedState "1" "").1 = none ∧
    GetSquareLoyaltyID (run linkedState [.updateSquareLoyaltyID "1" ""]) "1" = .ok "" ∧
    Linked linkedState "1" ∧ ¬ Linked (run linkedState [.updateSquareLoyaltyID "1" ""]) "1" := by
  refine ⟨by decide, by decide, by decide, ⟨"loyalty-x", by decide, by decide⟩, ?_⟩
  rintro ⟨h, h1, h2⟩
  have h3 : GetSquareLoyaltyID (run linkedState [.updateSquareLoyaltyID "1" ""]) "1" = .ok "" := by
    decide
  rw [h3] at h1
  exact h2 (Except.ok.inj h1).symm

/-- One call that keeps account `id` linked preserves: the account exists and
its handle entry is a non-empty string. -/
theorem linked_step (s : MemoryService) (op : Op) (id : Nat) (hk : keepsLinked id op = true)
    (hex : (mapGet s.loyaltyAccounts id).isSome = true)
    (hl : ∃ h, mapGet s.squareLoyaltyIDs id = some h ∧ h ≠ "") :
    ∃ h, mapGet (step s op).squareLoyaltyIDs id = some h ∧ h ≠ "" := by
  by_cases hlink : linksFor id s op = true
  · cases op with
    | updateSquareLoyaltyID accountID squareLoyaltyID =>
      simp only [linksFor, Bool.and_eq_true, beq_iff_eq] at hlink
      have hne : squareLoyaltyID ≠ "" := by
        simpa [keepsLinked, hlink.1] using hk
      refine ⟨squareLoyaltyID, ?_, hne⟩
      simp only [step, UpdateSquareLoyaltyID_ok s accountID squareLoyaltyID id hlink.1 hex]
      exact mapGet_mapSet_self _ _ _
    | createUser now email passwordHash => simp [linksFor] at hlink
    | createLoyaltyAccount now userID => simp [linksFor] at hlink
    | addTransaction now accountID transactionType points => simp [linksFor] at hlink
  · rw [handle_step_of_not_links s op id (by simpa using hlink)]
    exact hl

/-- C16, amended. Once an account is Linked it is still Linked after every
subsequent sequence of store calls in which no `UpdateSquareLoyaltyID` for
that account carries the empty string.  `UpdateSquareLoyaltyID` stores
whatever string it is given: with the empty string on an existing account it
returns no error and the account is Unlinked again. -/
theorem linked_stays_linked (s : MemoryService) (accountID : String) (id : Nat)
    (hp : parseUint32 accountID = some id) (hl : Linked s accountID) :
    (∀ ops : List Op, ops.all (keepsLinked id) = true → Linked (run s ops) accountID) ∧
    ((UpdateSquareLoyaltyID s accountID "").1 = none ∧
      GetSquareLoyaltyID (UpdateSquareLoyaltyID s accountID "").2 accountID = .ok "") := by
  obtain ⟨h, hget, hne⟩ := hl
  have hex : (mapGet s.loyaltyAccounts id).isSome = true := by
    cases hg : mapGet s.loyaltyAccounts id with
    | none => simp [GetSquareLoyaltyID, hp, hg] at hget
    | some account => rfl
  have hentry : ∃ h, mapGet s.squareLoyaltyIDs id = some h ∧ h ≠ "" := by
    rw [GetSquareLoyaltyID_eq s accountID id hp hex] at hget
    have hh : (mapGet s.squareLoyaltyIDs id).getD "" = h := Except.ok.inj hget
    cases hm : mapGet s.squareLoyaltyIDs id with
    | none => rw [hm] at hh; exact absurd hh.symm hne
    | some v => rw [hm] at hh; exact ⟨v, rfl, by rw [show v = h from hh]; exact hne⟩
  constructor
  · intro ops
    have key : ∀ (ops : List Op) (s : MemoryService),
        (mapGet s.loyaltyAccounts id).isSome = true →
        (∃ h, mapGet s.squareLoyaltyIDs id = some h ∧ h ≠ "") →
        ops.all (keepsLinked id) = true → Linked (run s ops) accountID := by
      intro ops
      induction ops with
      | nil =>
        intro s hex hentry _
        obtain ⟨v, hv, hvne⟩ := hentry
        exact ⟨v, by rw [show run s [] = s from rfl,
          GetSquareLoyaltyID_eq s accountID id hp hex, hv]; rfl, hvne⟩
      | cons op ops ih =>
        intro s hex hentry hall
        simp only [List.all_cons, Bool.and_eq_true] at hall
        exact ih (step s op) (account_exists_step s op id hex)
          (linked_step s op id hall.1 hex hentry) hall.2
    exact key ops s hex hentry
  · rw [UpdateSquareLoyaltyID_ok s accountID "" id hp hex]
    refine ⟨rfl, ?_⟩
    simp only []
    rw [GetSquareLoyaltyID_eq _ accountID id hp (by exact hex)]
    simp [mapGet_mapSet_self]

theorem linked_stays_linked_witness :
    parseUint32 "1" = some 1 ∧ Linked linkedState "1" ∧
    Linked (run linkedState
      [.addTransaction 6 "1" "EARN" 1, .updateSquareLoyaltyID "1" "loyalty-y"]) "1" :=
  have hl : Linked linkedState "1" := ⟨"loyalty-x", by decide, by decide⟩
  ⟨by decide, hl,
    (linked_stays_linked linkedState "1" 1 (by decide) hl).1 _ (by decide)⟩

/-! ## The history of a new account -/

/-- A call that commits nothing for account `id` leaves its history as it was. -/
theorem history_step_of_not_commits (s : MemoryService) (op : Op) (id : Nat)
    (h : commitsFor id s op = false) : history (step s op) id = history s id := by
  cases op with
  | createUser now email passwordHash =>
    rcases CreateUser_cases s now email passwordHash with ⟨e, he⟩ | ⟨_, he⟩ <;>
      simp only [step, he, history]
  | createLoyaltyAccount now userID =>
    rcases CreateLoyaltyAccount_cases s now userID with ⟨e, he⟩ | ⟨uid, kv, _, _, _, he⟩ <;>
      simp only [step, he, history]
  | addTransaction now accountID transactionType points =>
    rcases AddTransaction_cases s now accountID transactionType points with
      ⟨e, he⟩ | ⟨j, account, nb, hp, _, _, he⟩
    · simp only [step, he]
    · simp only [step, he]
      have hne : id ≠ j := by
        intro hij
        simp [commitsFor, hp, he, hij] at h
      exact history_afterCommit_ne _ _ _ _ _ _ _ _ hne
  | updateSquareLoyaltyID accountID squareLoyaltyID =>
    rcases UpdateSquareLoyaltyID_cases s accountID squareLoyaltyID with ⟨e, he⟩ | ⟨j, _, he⟩ <;>
      simp only [step, he, history]

theorem history_of_noCommitFor (ops : List Op) (id : Nat) :
    ∀ s : MemoryService, noCommitFor id s ops = true →
      history (run s ops) id = history s id := by
  induction ops with
  | nil => intro s _; rfl
  | cons op ops ih =>
    intro s hnc
    simp only [noCommitFor, Bool.and_eq_true, Bool.not_eq_true'] at hnc
    exact (ih (step s op) hnc.2).trans (history_step_of_not_commits s op id hnc.1)

/-- C19. In the state after any sequence of calls from `NewMemoryService`,
for every account that exists (so `CreateLoyaltyAccount` created it) and for
which no `AddTransaction` of the sequence returned without error,
`GetTransactionHistory` returns the empty sequence and no error. -/
theorem history_of_fresh_account_empty (ops : List Op) (accountID : String) (id : Nat)
    (hp : parseUint32 accountID = some id)
    (_hex : (mapGet (run NewMemoryService ops).loyaltyAccounts id).isSome = true)
    (hnc : noCommitFor id NewMemoryService ops = true) :
    GetTransactionHistory (run NewMemoryService ops) accountID = .ok [] := by
  rw [GetTransactionHistory_eq _ accountID id hp, history_of_noCommitFor ops id _ hnc]
  rfl

theorem history_of_fresh_account_empty_witness :
    parseUint32 "1" = some 1 ∧
    (mapGet (run NewMemoryService
      [.createUser 1 "a@b.c" "hash", .createLoyaltyAccount 2 "1",
       .addTransaction 3 "1" "REDEEM" 5]).loyaltyAccounts 1).isSome = true ∧
    noCommitFor 1 NewMemoryService
      [.createUser 1 "a@b.c" "hash", .createLoyaltyAccount 2 "1",
       .addTransaction 3 "1" "REDEEM" 5] = true ∧
    GetTransactionHistory (run NewMemoryService
      [.createUser 1 "a@b.c" "hash", .createLoyaltyAccount 2 "1",
       .addTransaction 3 "1" "REDEEM" 5]) "1" = .ok [] :=
  ⟨by decide, by decide, by decide,
    history_of_fresh_account_empty _ "1" 1 (by decide) (by decide) (by decide)⟩

/-! ## Printing and parsing identifiers -/

theorem digitChar_isDigit (d : Nat) (hd : d < 10) :
    (Nat.digitChar d).isDigit = true ∧ (Nat.digitChar d).toNat - 48 = d := by
  interval_cases d <;> decide

theorem toDigitsCore_append (f : Nat) :
    ∀ (n : Nat) (ds : List Char),
      Nat.toDigitsCore 10 f n ds = Nat.toDigitsCore 10 f n [] ++ ds := by
  induction f with
  | zero => intro n ds; simp [Nat.toDigitsCore]
  | succ f ih =>
    intro n ds
    simp only [Nat.toDigitsCore]
    by_cases h : n / 10 = 0
    · simp [h]
    · simp only [h, if_false]
      rw [ih (n / 10) (Nat.digitChar (n % 10) :: ds), ih (n / 10) [Nat.digitChar (n % 10)]]
      simp

theorem digitsValue_append_singleton (cs : List Char) (c : Char) :
    digitsValue (cs ++ [c]) = digitsValue cs * 10 + (c.toNat - 48) := by
  simp [digitsValue, List.foldl_append]

/-- The digits `Nat.toDigitsCore` prints, with enough fuel, are a non-empty
string of ASCII digits with the value printed. -/
theorem toDigitsCore_spec (f : Nat) :
    ∀ n : Nat, n < f →
      Nat.toDigitsCore 10 f n [] ≠ [] ∧
      (Nat.toDigitsCore 10 f n []).all Char.isDigit = true ∧
      digitsValue (Nat.toDigitsCore 10 f n []) = n := by
  induction f with
  | zero => intro n h; omega
  | succ f ih =>
    intro n hn
    have hd := digitChar_isDigit (n % 10) (Nat.mod_lt _ (by norm_num))
    simp only [Nat.toDigitsCore]
    by_cases h : n / 10 = 0
    · simp only [h, if_true]
      refine ⟨by simp, by simp [hd.1], ?_⟩
      have hmod : n % 10 = n := Nat.mod_eq_of_lt (by omega)
      have hv := hd.2
      rw [hmod] at hv
      simp [digitsValue, hmod, hv]
    · simp only [h, if_false]
      rw [toDigitsCore_append]
      obtain ⟨_, i2, i3⟩ := ih (n / 10) (by omega)
      refine ⟨by simp, ?_, ?_⟩
      · simp [List.all_append, hd.1]
        simpa using i2
      · rw [digitsValue_append_singleton, i3, hd.2]
        omega

/-- Parsing the numeral printed for an identifier below `2^32` gives the
identifier back. -/
theorem parseUint32_formatUint (n : Nat) (hn : n < 2 ^ 32) :
    parseUint32 (formatUint n) = some n := by
  obtain ⟨h1, h2, h3⟩ := toDigitsCore_spec (n + 1) n (Nat.lt_succ_self n)
  have hdata : (formatUint n).data = Nat.toDigitsCore 10 (n + 1) n [] := rfl
  simp only [parseUint32, hdata, h1, h2, h3, hn, if_true, if_false]

/-! ## The handlers -/

theorem GetUserByID_ok (db : MemoryService) (userID : String) (uid : Nat)
    (hp : parseUint32 userID = some uid) (huser : ∃ u ∈ db.users, u.2.ID = uid) :
    ∃ user, GetUserByID db userID = .ok user := by
  cases hf : db.users.find? (fun kv => kv.2.ID == uid) with
  | none =>
    obtain ⟨u, hu, hue⟩ := huser
    have := List.find?_eq_none.mp hf u hu
    simp [hue] at this
  | some kv => exact ⟨kv.2, by simp [GetUserByID, hp, hf]⟩

/-- In a reachable state the lookup by user returns the account stored for
that user. -/
theorem GetLoyaltyAccountByUserID_ok (db : MemoryService) (hdb : Reachable db)
    (userID : String) (uid k : Nat) (account : LoyaltyAccount)
    (hp : parseUint32 userID = some uid)
    (hg : mapGet db.loyaltyAccounts k = some account) (hu : account.UserID = uid) :
    GetLoyaltyAccountByUserID db userID = .ok account := by
  have hfind := find_account_any_order db.loyaltyAccounts db.loyaltyAccounts uid k account
    (reachable_idInv hdb).user_nodup (mapGet_some_mem _ _ _ hg) hu (List.Perm.refl _)
  simp [GetLoyaltyAccountByUserID, hp, hfind]

/-- C17. For every provider, every reachable store and every request of
`points ≥ 1` by a user whose account holds a balance smaller than `points`,
the `RedeemPoints` handler answers 400 "Not enough points", has made no
provider call, and leaves the store, hence balance, history and handle, and
the provider's state as they were. -/
theorem redeem_checks_balance_before_provider {π : Type} (sq : Provider π)
    (db : MemoryService) (hdb : Reachable db) (p0 : π) (now : Nat) (userID : String)
    (uid k : Nat) (account : LoyaltyAccount) (points : Int)
    (hp : parseUint32 userID = some uid) (huser : ∃ u ∈ db.users, u.2.ID = uid)
    (hg : mapGet db.loyaltyAccounts k = some account) (hu : account.UserID = uid)
    (hk : k < 2 ^ 32) (hpts : 1 ≤ points) (hlt : account.Balance < points) :
    (LoyaltyHandler.RedeemPoints sq db p0 now ⟨some points, some userID⟩).response =
      .error 400 "Not enough points" ∧
    (LoyaltyHandler.RedeemPoints sq db p0 now ⟨some points, some userID⟩).calls = [] ∧
    (LoyaltyHandler.RedeemPoints sq db p0 now ⟨some points, some userID⟩).db = db ∧
    (LoyaltyHandler.RedeemPoints sq db p0 now ⟨some points, some userID⟩).provider = p0 := by
  obtain ⟨user, huok⟩ := GetUserByID_ok db userID uid hp huser
  have haok := GetLoyaltyAccountByUserID_ok db hdb userID uid k account hp hg hu
  have hid : account.ID = k := (reachable_idInv hdb).acct_id (k, account)
    (mapGet_some_mem _ _ _ hg)
  have hbal : GetBalance db (formatUint account.ID) = .ok account.Balance := by
    rw [hid]
    exact GetBalance_eq db _ k account (parseUint32_formatUint k hk) hg
  simp [LoyaltyHandler.RedeemPoints, bindPoints, hpts, huok, haok, hbal, hlt]

theorem redeem_checks_balance_before_provider_witness :
    Reachable sampleState ∧ parseUint32 "1" = some 1 ∧
    mapGet sampleState.loyaltyAccounts 1 = some sampleAccount ∧
    sampleAccount.Balance < 7 ∧
    (LoyaltyHandler.RedeemPoints SquareService sampleState () 5 ⟨some 7, some "1"⟩).response =
      .error 400 "Not enough points" ∧
    (LoyaltyHandler.RedeemPoints SquareService sampleState () 5 ⟨some 7, some "1"⟩).calls = [] ∧
    (LoyaltyHandler.RedeemPoints SquareService sampleState () 5 ⟨some 7, some "1"⟩).db =
      sampleState :=
  have h := redeem_checks_balance_before_provider SquareService sampleState ⟨sampleOps, rfl⟩ ()
    5 "1" 1 1 sampleAccount 7 (by decide)
    ⟨("a@b.c", userRecord 1 1 "a@b.c" "hash"), by decide, by decide⟩ (by decide) (by decide)
    (by decide) (by decide) (by decide)
  ⟨⟨sampleOps, rfl⟩, by decide, by decide, by decide, h.1, h.2.1, h.2.2.1⟩

/-- C18. For every provider, store and request: whenever the provider's
`EarnPoints` call made by the `EarnPoints` handler returns an error, the
handler answers 500 "Failed to earn points in Square: ..." and the store
after the handler is the store before it, so no transaction was added, no
balance or history changed and no handle written. -/
theorem earn_provider_failure_no_mutation {π : Type} (sq : Provider π) (db : MemoryService)
    (p0 : π) (now : Nat) (req : Request) (accountID : String) (points : Int)
    (hfail : ProviderCall.earnPoints accountID points false ∈
      (LoyaltyHandler.EarnPoints sq db p0 now req).calls) :
    (∃ e, (LoyaltyHandler.EarnPoints sq db p0 now req).response =
      .error 500 ("Failed to earn points in Square: " ++ e)) ∧
    (LoyaltyHandler.EarnPoints sq db p0 now req).db = db := by
  cases hb : bindPoints req.points with
  | none => simp [LoyaltyHandler.EarnPoints, hb] at hfail
  | some pts =>
  cases hu : req.userID with
  | none => simp [LoyaltyHandler.EarnPoints, hb, hu] at hfail
  | some userID =>
  cases hg : GetUserByID db userID with
  | error e => simp [LoyaltyHandler.EarnPoints, hb, hu, hg] at hfail
  | ok user =>
  rcases hc : sq.GetOrCreateCustomer p0 user.Email with ⟨r1, p1⟩
  cases r1 with
  | error e => simp [LoyaltyHandler.EarnPoints, hb, hu, hg, hc] at hfail
  | ok customer =>
  rcases hl : sq.GetOrCreateLoyaltyAccount p1 customer.ID with ⟨r2, p2⟩
  cases r2 with
  | error e => simp [LoyaltyHandler.EarnPoints, hb, hu, hg, hc, hl] at hfail
  | ok loyaltyAccount =>
  rcases he : sq.EarnPoints p2 loyaltyAccount.ID pts with ⟨r3, p3⟩
  cases r3 with
  | some e =>
    exact ⟨⟨e, by simp [LoyaltyHandler.EarnPoints, hb, hu, hg, hc, hl, he]⟩,
      by simp [LoyaltyHandler.EarnPoints, hb, hu, hg, hc, hl, he]⟩
  | none =>
    cases ha : GetLoyaltyAccountByUserID db userID with
    | error e => simp [LoyaltyHandler.EarnPoints, hb, hu, hg, hc, hl, he, ha] at hfail
    | ok account =>
      rcases ht : AddTransaction db now (formatUint account.ID) "EARN" pts with ⟨r4, db1⟩
      cases r4 <;> simp [LoyaltyHandler.EarnPoints, hb, hu, hg, hc, hl, he, ha, ht] at hfail

theorem earn_provider_failure_no_mutation_witness :
    ProviderCall.earnPoints "loyalty-customer-a@b.c" 20 false ∈
      (LoyaltyHandler.EarnPoints failingProvider sampleState () 5 ⟨some 20, some "1"⟩).calls ∧
    (LoyaltyHandler.EarnPoints failingProvider sampleState () 5 ⟨some 20, some "1"⟩).response =
      .error 500 "Failed to earn points in Square: unavailable" ∧
    (LoyaltyHandler.EarnPoints failingProvider sampleState () 5 ⟨some 20, some "1"⟩).db =
      sampleState :=
  ⟨by decide, by decide,
    (earn_provider_failure_no_mutation failingProvider sampleState () 5 ⟨some 20, some "1"⟩
      "loyalty-customer-a@b.c" 20 (by decide)).2⟩

/-- C20, the code at the failing input: the store holds user 1 and no
account; the `EarnPoints` handler with the source's `SquareService` calls the
provider's `EarnPoints`, which awards the 5 points, and only then looks up
the local account and answers 500 "Failed to get local loyalty account". -/
theorem earn_awards_before_account_lookup :
    Reachable userOnlyState ∧ GetUserByID userOnlyState "1" =
      .ok (userRecord 1 1 "a@b.c" "hash") ∧
    userOnlyState.loyaltyAccounts = [] ∧
    (LoyaltyHandler.EarnPoints SquareService userOnlyState () 3 ⟨some 5, some "1"⟩).response =
      .error 500 "Failed to get local loyalty account" ∧
    (LoyaltyHandler.EarnPoints SquareService userOnlyState () 3 ⟨some 5, some "1"⟩).calls =
      [.getOrCreateCustomer "a@b.c" true, .getOrCreateLoyaltyAccount "customer-a@b.c" true,
       .earnPoints "loyalty-customer-a@b.c" 5 true] ∧
    (LoyaltyHandler.EarnPoints SquareService userOnlyState () 3 ⟨some 5, some "1"⟩).db =
      userOnlyState :=
  ⟨⟨[.createUser 1 "a@b.c" "hash"], rfl⟩, by decide, by decide, by decide, by decide, by decide⟩

/-! ## Histories and accounts -/

theorem historyOwned_new : HistoryOwned NewMemoryService := by
  intro id h
  simp [NewMemoryService, mapGet] at h

theorem historyOwned_step {s : MemoryService} (h : HistoryOwned s) (op : Op) :
    HistoryOwned (step s op) := by
  intro id hsome
  by_cases hold : (mapGet s.transactions id).isSome = true
  · exact account_exists_step s op id (h id hold)
  · rcases step_cases s op with e | ⟨now, j, ty, p, account, nb, hg, _, e⟩ |
      ⟨now, uid, kv, _, _, e⟩ | ⟨now, email, ph, _, e⟩ | ⟨j, handle, e⟩
    · rw [e] at hsome; exact absurd hsome hold
    · rw [e] at hsome ⊢
      by_cases hij : id = j
      · subst hij
        rw [account_afterCommit_self]; rfl
      · simp only [afterCommit, mapGet_mapSet_ne _ _ _ _ hij] at hsome
        exact absurd hsome hold
    · rw [e] at hsome; exact absurd hsome hold
    · rw [e] at hsome; exact absurd hsome hold
    · rw [e] at hsome; exact absurd hsome hold

theorem reachable_historyOwned {s : MemoryService} (h : Reachable s) : HistoryOwned s :=
  reachable_induction historyOwned_new (fun _ op ih => historyOwned_step ih op) h

/-- C24. In every reachable state, for every account ID string that denotes
a number no account has, `GetTransactionHistory` returns the empty sequence
and no error, whereas `GetBalance` and `GetSquareLoyaltyID` return the
account-not-found error. -/
theorem history_of_missing_account_empty (s : MemoryService) (hs : Reachable s)
    (accountID : String) (id : Nat) (hp : parseUint32 accountID = some id)
    (hno : mapGet s.loyaltyAccounts id = none) :
    GetTransactionHistory s accountID = .ok [] ∧
    GetBalance s accountID = .error .accountNotFound ∧
    GetSquareLoyaltyID s accountID = .error .accountNotFound := by
  refine ⟨?_, by simp [GetBalance, hp, hno], by simp [GetSquareLoyaltyID, hp, hno]⟩
  cases ht : mapGet s.transactions id with
  | none => simp [GetTransactionHistory, hp, ht]
  | some h =>
    have := reachable_historyOwned hs id (by rw [ht]; rfl)
    rw [hno] at this
    simp at this

theorem history_of_missing_account_empty_witness :
    Reachable sampleState ∧ parseUint32 "9" = some 9 ∧
    mapGet sampleState.loyaltyAccounts 9 = none ∧
    GetTransactionHistory sampleState "9" = .ok [] ∧
    GetBalance sampleState "9" = .error .accountNotFound ∧
    GetSquareLoyaltyID sampleState "9" = .error .accountNotFound :=
  ⟨⟨sampleOps, rfl⟩, by decide, by decide,
    history_of_missing_account_empty sampleState ⟨sampleOps, rfl⟩ "9" 9 (by decide) (by decide)⟩

/-! ## What `AddTransaction` leaves alone -/

/-- C22. For every `AddTransaction(a, kind, points)`, whatever it returns:
the users, the external handles, `nextUserID` and `nextAccountID` after the
call are those before it; the stored accounts are the same up to the balance
of one, under the same keys; and for every account other than `a` the stored
account with its balance, the history and what `GetBalance`,
`GetTransactionHistory` and `GetSquareLoyaltyID` return are the same after
the call as before it. -/
theorem addTransaction_touches_only_its_account (s : MemoryService) (now : Nat)
    (a kind : String) (points : Int) :
    (AddTransaction s now a kind points).2.users = s.users ∧
    (AddTransaction s now a kind points).2.squareLoyaltyIDs = s.squareLoyaltyIDs ∧
    (AddTransaction s now a kind points).2.nextUserID = s.nextUserID ∧
    (AddTransaction s now a kind points).2.nextAccountID = s.nextAccountID ∧
    (AddTransaction s now a kind points).2.loyaltyAccounts.map Prod.fst =
      s.loyaltyAccounts.map Prod.fst ∧
    (AddTransaction s now a kind points).2.loyaltyAccounts.map
        (fun kv => (kv.1, { kv.2 with Balance := 0 })) =
      s.loyaltyAccounts.map (fun kv => (kv.1, { kv.2 with Balance := 0 })) ∧
    ∀ j : Nat, parseUint32 a ≠ some j →
      mapGet (AddTransaction s now a kind points).2.loyaltyAccounts j =
        mapGet s.loyaltyAccounts j ∧
      history (AddTransaction s now a kind points).2 j = history s j ∧
      ∀ b : String, parseUint32 b = some j →
        GetBalance (AddTransaction s now a kind points).2 b = GetBalance s b ∧
        GetTransactionHistory (AddTransaction s now a kind points).2 b =
          GetTransactionHistory s b ∧
        GetSquareLoyaltyID (AddTransaction s now a kind points).2 b =
          GetSquareLoyaltyID s b := by
  rcases AddTransaction_cases s now a kind points with
    ⟨e, he⟩ | ⟨id, account, nb, hp, hg, _, he⟩
  · rw [he]
    exact ⟨rfl, rfl, rfl, rfl, rfl, rfl, fun j _ => ⟨rfl, rfl, fun b _ => ⟨rfl, rfl, rfl⟩⟩⟩
  · rw [he]
    obtain ⟨l1, l2, e1, e2⟩ :=
      mapSet_of_some s.loyaltyAccounts id account { account with Balance := nb } hg
    refine ⟨rfl, rfl, rfl, rfl, ?_, ?_, ?_⟩
    · simp only [afterCommit, e2]
      rw [e1]
      simp
    · simp only [afterCommit, e2]
      rw [e1]
      simp
    · intro j hj
      have hne : j ≠ id := by
        intro hji
        exact hj (by rw [hp, hji])
      have hacc := account_afterCommit_ne s now id kind points account nb j hne
      have hhist := history_afterCommit_ne s now id kind points account nb j hne
      refine ⟨hacc, hhist, ?_⟩
      intro b hb
      refine ⟨?_, ?_, ?_⟩
      · simp only [GetBalance, hb, hacc]
      · rw [GetTransactionHistory_eq _ b j hb, GetTransactionHistory_eq _ b j hb, hhist]
      · simp only [GetSquareLoyaltyID, hb, hacc]
        rfl

theorem addTransaction_touches_only_its_account_witness :
    parseUint32 "1" ≠ some 2 ∧ parseUint32 "2" = some 2 ∧
    GetBalance twoAccountState "2" = .ok 7 ∧
    GetTransactionHistory twoAccountState "2" = .ok [txnRecord 1 5 2 "EARN" 7] ∧
    GetSquareLoyaltyID twoAccountState "2" = .ok "loyalty-b" ∧
    (AddTransaction twoAccountState 7 "1" "EARN" 3).1 = none ∧
    GetBalance (AddTransaction twoAccountState 7 "1" "EARN" 3).2 "1" = .ok 3 ∧
    (AddTransaction twoAccountState 7 "1" "EARN" 3).2.users = twoAccountState.users ∧
    (AddTransaction twoAccountState 7 "1" "EARN" 3).2.loyaltyAccounts.map Prod.fst = [1, 2] ∧
    mapGet (AddTransaction twoAccountState 7 "1" "EARN" 3).2.loyaltyAccounts 2 =
      mapGet twoAccountState.loyaltyAccounts 2 ∧
    history (AddTransaction twoAccountState 7 "1" "EARN" 3).2 2 = history twoAccountState 2 ∧
    GetBalance (AddTransaction twoAccountState 7 "1" "EARN" 3).2 "2" =
      GetBalance twoAccountState "2" ∧
    GetTransactionHistory (AddTransaction twoAccountState 7 "1" "EARN" 3).2 "2" =
      GetTransactionHistory twoAccountState "2" ∧
    GetSquareLoyaltyID (AddTransaction twoAccountState 7 "1" "EARN" 3).2 "2" =
      GetSquareLoyaltyID twoAccountState "2" :=
  have h := addTransaction_touches_only_its_account twoAccountState 7 "1" "EARN" 3
  have h2 := h.2.2.2.2.2.2 2 (by decide)
  ⟨by decide, by decide, by decide, by decide, by decide, by decide, by decide, h.1,
    h.2.2.2.2.1.trans (by decide), h2.1, h2.2.1, (h2.2.2 "2" (by decide)).1,
    (h2.2.2 "2" (by decide)).2.1, (h2.2.2 "2" (by decide)).2.2⟩

/-! ## Positive points and no overflow -/

/-- A call with `points > 0` that does not overflow is in bounds. -/
theorem callInBounds_of_positive (s : MemoryService) (op : Op)
    (hpos : positiveAdd op = true) (hov : callOverflows s op = false) :
    callInBounds s op = true := by
  cases op with
  | addTransaction now accountID transactionType points =>
    simp only [positiveAdd, decide_eq_true_eq] at hpos
    simp only [callInBounds, Bool.and_eq_true, decide_eq_true_eq]
    refine ⟨by omega, ?_⟩
    cases hb : GetBalance s accountID with
    | error e => rfl
    | ok b =>
      simp only [callOverflows, hb] at hov
      by_cases hty : transactionType = "EARN"
      · have hr : InIntRange (b + points) := by
          simpa [hty] using hov
        have hle : b + points ≤ maxInt := by
          rw [maxInt_eq]
          have := hr.2
          norm_num at this
          omega
        simp [hle]
      · simp [hty]
  | createUser now email passwordHash => simp [positiveAdd] at hpos
  | createLoyaltyAccount now userID => simp [positiveAdd] at hpos
  | updateSquareLoyaltyID accountID squareLoyaltyID => simp [positiveAdd] at hpos

/-- C21. For every store whose balances are all `≥ 0` (and, being Go `int`s,
`≤ maxInt`) and every sequence of `AddTransaction` calls in which every
points argument is `> 0` and no call overflows, every account's balance is
`≥ 0` after every call of the sequence. -/
theorem balance_nonneg_with_positive_points (s : MemoryService) (ops : List Op)
    (hs : ∀ id account, mapGet s.loyaltyAccounts id = some account →
      0 ≤ account.Balance ∧ account.Balance ≤ maxInt)
    (hpos : ops.all positiveAdd = true) (hov : noOverflow s ops = true) :
    ∀ (n : Nat) (id : Nat) (account : LoyaltyAccount),
      mapGet (run s (ops.take n)).loyaltyAccounts id = some account →
      0 ≤ account.Balance := by
  have key : ∀ (ops : List Op) (s : MemoryService), NonNegInv s →
      ops.all positiveAdd = true → noOverflow s ops = true →
      ∀ n, NonNegInv (run s (ops.take n)) := by
    intro ops
    induction ops with
    | nil => intro s hs _ _ n; simpa [run] using hs
    | cons op ops ih =>
      intro s hs hpos hov n
      cases n with
      | zero => simpa [run] using hs
      | succ n =>
        simp only [List.all_cons, Bool.and_eq_true] at hpos
        simp only [noOverflow, Bool.and_eq_true, Bool.not_eq_true'] at hov
        have hstep := nonNegInv_step hs op (callInBounds_of_positive s op hpos.1 hov.1)
        simpa [run] using ih (step s op) hstep hpos.2 hov.2 n
  intro n id account hg
  exact (key ops s hs hpos hov n id account hg).1

theorem balance_nonneg_with_positive_points_witness :
    (∀ id account, mapGet freshState.loyaltyAccounts id = some account →
      0 ≤ account.Balance ∧ account.Balance ≤ maxInt) ∧
    positiveCalls.all positiveAdd = true ∧ noOverflow freshState positiveCalls = true ∧
    mapGet (run freshState (positiveCalls.take 2)).loyaltyAccounts 1 = some sampleAccount ∧
    0 ≤ sampleAccount.Balance :=
  have hfresh : ∀ id account, mapGet freshState.loyaltyAccounts id = some account →
      0 ≤ account.Balance ∧ account.Balance ≤ maxInt :=
    nonNegInv_run nonNegInv_new
      [.createUser 1 "a@b.c" "hash", .createLoyaltyAccount 2 "1"] (by decide)
  ⟨hfresh, by decide, by decide, by decide,
    balance_nonneg_with_positive_points freshState positiveCalls hfresh (by decide)
      (by decide) 2 1 sampleAccount (by decide)⟩

/-! ## Identifiers in order of success -/

/-- A call either records nothing and leaves the transaction map and
`nextTxnID` as they were, or is a successful `AddTransaction` that records
one transaction with identifier `nextTxnID`. -/
theorem step_commit_cases (s : MemoryService) (op : Op) :
    (succeeds s op = false ∧ recorded s op = [] ∧
      (step s op).nextTxnID = s.nextTxnID ∧ (step s op).transactions = s.transactions) ∨
    (∃ now id ty p account nb, succeeds s op = true ∧
      recorded s op = [txnRecord s.nextTxnID now id ty p] ∧
      step s op = afterCommit s now id ty p account nb) := by
  cases op with
  | createUser now email passwordHash =>
    left
    rcases CreateUser_cases s now email passwordHash with ⟨e, he⟩ | ⟨_, he⟩ <;>
      simp [succeeds, recorded, step, he]
  | createLoyaltyAccount now userID =>
    left
    rcases CreateLoyaltyAccount_cases s now userID with ⟨e, he⟩ | ⟨uid, kv, _, _, _, he⟩ <;>
      simp [succeeds, recorded, step, he]
  | updateSquareLoyaltyID accountID squareLoyaltyID =>
    left
    rcases UpdateSquareLoyaltyID_cases s accountID squareLoyaltyID with ⟨e, he⟩ | ⟨j, _, he⟩ <;>
      simp [succeeds, recorded, step, he]
  | addTransaction now accountID transactionType points =>
    rcases AddTransaction_cases s now accountID transactionType points with
      ⟨e, he⟩ | ⟨id, account, nb, hp, _, _, he⟩
    · left
      simp [succeeds, recorded, step, he]
    · right
      refine ⟨now, id, transactionType, points, account, nb, ?_, ?_, ?_⟩
      · simp [succeeds, he]
      · simp [recorded, he, GetTransactionHistory_eq _ accountID id hp,
          history_afterCommit_self]
      · simp [step, he]

/-- From any state: `nextTxnID` grows by the number of successes, the
recorded transactions carry the consecutive identifiers from `nextTxnID` on,
and the store holds what it held plus the recorded transactions. -/
theorem commitLog_spec (ops : List Op) :
    ∀ s : MemoryService,
      (run s ops).nextTxnID = s.nextTxnID + successCount s ops ∧
      (commitLog s ops).map (fun t => t.ID) =
        List.range' s.nextTxnID (successCount s ops) ∧
      (allTransactions (run s ops)).Perm (allTransactions s ++ commitLog s ops) := by
  induction ops with
  | nil => intro s; simp [run, successCount, commitLog]
  | cons op ops ih =>
    intro s
    obtain ⟨i1, i2, i3⟩ := ih (step s op)
    have hrun : run s (op :: ops) = run (step s op) ops := rfl
    rw [hrun]
    rcases step_commit_cases s op with ⟨h1, h2, h3, h4⟩ |
      ⟨now, id, ty, p, account, nb, h1, h2, h3⟩
    · have hall : allTransactions (step s op) = allTransactions s := by
        simp [allTransactions, h4]
      simp only [successCount, commitLog, h1, h2, List.nil_append, Bool.false_eq_true,
        if_false, Nat.zero_add]
      rw [h3] at i1 i2
      rw [hall] at i3
      exact ⟨i1, i2, i3⟩
    · have hnext : (step s op).nextTxnID = s.nextTxnID + 1 := by
        rw [h3]; rfl
      have hperm := allTransactions_afterCommit s now id ty p account nb
      simp only [successCount, commitLog, h1, h2, if_true]
      rw [hnext] at i1 i2
      refine ⟨by omega, ?_, ?_⟩
      · rw [Nat.add_comm 1, List.range'_succ]
        simp [i2, txnRecord]
      · rw [← h3] at hperm
        refine i3.trans ?_
        refine (List.Perm.append_right _ hperm).trans ?_
        simp only [List.cons_append, List.singleton_append]
        exact List.perm_middle.symm

/-- C23. An `AddTransaction` that returns an error leaves the state, and so
`nextTxnID`, as it was.  After any sequence of calls from `NewMemoryService`
in which `k` `AddTransaction` calls returned no error: `nextTxnID` is
`k + 1`; the transactions recorded, in the order of the successful calls,
carry the identifiers `1, 2, ..., k`; and the transactions of the store,
over all accounts, are exactly those. -/
theorem transaction_ids_without_gaps (ops : List Op) :
    (∀ (s : MemoryService) (now : Nat) (accountID kind : String) (points : Int),
      (AddTransaction s now accountID kind points).1 ≠ none →
      (AddTransaction s now accountID kind points).2 = s) ∧
    (run NewMemoryService ops).nextTxnID = successCount NewMemoryService ops + 1 ∧
    (commitLog NewMemoryService ops).map (fun t => t.ID) =
      List.range' 1 (successCount NewMemoryService ops) ∧
    (allTransactions (run NewMemoryService ops)).Perm (commitLog NewMemoryService ops) ∧
    ((allTransactions (run NewMemoryService ops)).map (fun t => t.ID)).Perm
      (List.range' 1 (successCount NewMemoryService ops)) := by
  obtain ⟨i1, i2, i3⟩ := commitLog_spec ops NewMemoryService
  have hperm : (allTransactions (run NewMemoryService ops)).Perm
      (commitLog NewMemoryService ops) := by
    simpa [allTransactions, NewMemoryService] using i3
  refine ⟨?_, ?_, i2, hperm, ?_⟩
  · intro s now accountID kind points herr
    rcases AddTransaction_cases s now accountID kind points with
      ⟨e, he⟩ | ⟨id, account, nb, _, _, _, he⟩
    · rw [he]
    · rw [he] at herr
      exact absurd rfl herr
  · rw [i1]
    simp [NewMemoryService, Nat.add_comm]
  · have := hperm.map (fun t => t.ID)
    rw [i2] at this
    exact this

theorem transaction_ids_without_gaps_witness :
    (AddTransaction sampleState 5 "1" "REDEEM" 7).1 ≠ none ∧
    (AddTransaction sampleState 5 "1" "REDEEM" 7).2 = sampleState ∧
    successCount NewMemoryService (sampleOps ++ [.addTransaction 5 "1" "REDEEM" 7]) = 2 ∧
    (run NewMemoryService (sampleOps ++ [.addTransaction 5 "1" "REDEEM" 7])).nextTxnID =
      successCount NewMemoryService (sampleOps ++ [.addTransaction 5 "1" "REDEEM" 7]) + 1 ∧
    (commitLog NewMemoryService (sampleOps ++ [.addTransaction 5 "1" "REDEEM" 7])).map
      (fun t => t.ID) =
        List.range' 1
          (successCount NewMemoryService (sampleOps ++ [.addTransaction 5 "1" "REDEEM" 7])) :=
  have h := transaction_ids_without_gaps (sampleOps ++ [.addTransaction 5 "1" "REDEEM" 7])
  ⟨by decide, h.1 sampleState 5 "1" "REDEEM" 7 (by decide), by decide, h.2.1, h.2.2.1⟩

end Loyalty
